import Mathlib

/-!
# Verification of `mpi-sph.c` (Smoothed Particle Hydrodynamics, MPI version)

Shallow embedding of the numerical kernel and of the static partitioner of
`src/mpi-sph.c`.

Modelling conventions.

* C `int` values that the program keeps in `[0, INT_MAX]` (`n_particles`,
  `nproc`, loop indices) are natural numbers.  In the partitioner every
  intermediate value (`n_particles / nproc`, `n_particles % nproc`,
  `i * (n_particles / nproc)` with `i < nproc`) is bounded by `n_particles`,
  so no machine overflow can occur and `/`, `%` agree with C on non-negative
  operands.
* `float` / `double` values are elements of an arbitrary linearly ordered
  field `K` (exact arithmetic); instantiate `K := ℚ` to evaluate, `K := ℝ` for
  the real-valued reading.  Rounding is not modelled.
* The constant `M_PI` and the libm functions `hypotf` and `hypot` are parameters.
* An array reached through a pointer is a `List`; `rd` reads a cell, `wr`
  writes one.  A `for (int i = start; i < end; i++)` loop is `forRange`.
* The two loops of `init_sph` have `float` counters; they are recursive
  functions with fuel, and the theorems show that any fuel above 225 gives a
  result.  The values returned by `rand()` are a stream `rand : Nat → Nat`,
  and `RAND_MAX` is a parameter.
* `atoi(argv[1])` and `atoi(argv[2])` are integer parameters of `main_rank0`.
  `MPI_Reduce` with `MPI_SUM` is the sum over the list of shards.
-/

namespace SPH

/-! ## Loops and arrays -/

/-- The loop `for (int i = start; i < stop; i++) s = body(i, s);`. -/
def forRange {σ : Type} (start stop : Nat) (body : Nat → σ → σ) (s : σ) : σ :=
  (List.range (stop - start)).foldl (fun acc k => body (start + k) acc) s

/-- Array read `a[i]` (cells outside the list read as `d`). -/
def rd {α : Type} (d : α) (a : List α) (i : Nat) : α := (a[i]?).getD d

/-- Array write `a[i] = v`. -/
def wr {α : Type} (a : List α) (i : Nat) (v : α) : List α := a.set i v

/-! ## The partitioner loop of `main` (lines 471-477) -/

/-- One iteration of the loop at lines 471-477, acting on
`(local_count, local_offset)`. -/
def partition_body (n_particles nproc : Nat) (i : Nat)
    (st : List Nat × List Nat) : List Nat × List Nat :=
  let local_count := wr st.1 i (n_particles / nproc)
  let local_count :=
    if i = nproc - 1 then
      wr local_count i (rd 0 local_count i + n_particles % nproc)
    else local_count
  let local_offset := wr st.2 i (i * (n_particles / nproc))
  (local_count, local_offset)

/-- The arrays `(local_count, local_offset)` after the loop at lines 471-477;
both are allocated with `nproc` cells at lines 468-469. -/
def main_partition (n_particles nproc : Nat) : List Nat × List Nat :=
  forRange 0 nproc (partition_body n_particles nproc)
    (List.replicate nproc 0, List.replicate nproc 0)

/-- The array `local_count` after the partitioner loop. -/
def local_count (n_particles nproc : Nat) : List Nat :=
  (main_partition n_particles nproc).1

/-- The array `local_offset` after the partitioner loop. -/
def local_offset (n_particles nproc : Nat) : List Nat :=
  (main_partition n_particles nproc).2

/-! ## Solver parameters (lines 52-84, non-GUI build) -/

section Constants
variable (K : Type) [LinearOrderedField K]

/-- External force, x component: `const float Gx = 0.0`. -/
def Gx : K := 0
/-- External force, y component: `Gy = -10.0`. -/
def Gy : K := -10
/-- Rest density: `const float REST_DENS = 300`. -/
def REST_DENS : K := 300
/-- Constant of the equation of state: `const float GAS_CONST = 2000`. -/
def GAS_CONST : K := 2000
/-- Kernel radius: `const float H = 16`. -/
def H : K := 16
/-- Boundary margin: `const float EPS = 16`. -/
def EPS : K := 16
/-- Particle mass: `const float MASS = 2.5`. -/
def MASS : K := 5 / 2
/-- Viscosity constant: `const float VISC = 200`. -/
def VISC : K := 200
/-- Integration timestep: `const float DT = 0.0007`. -/
def DT : K := 7 / 10000
/-- Damping factor: `const float BOUND_DAMPING = -0.5`. -/
def BOUND_DAMPING : K := -(1 / 2)
/-- Capacity of the particle array: `const int MAX_PARTICLES = 20000`. -/
def MAX_PARTICLES : Nat := 20000
/-- Window width: `#define WINDOW_WIDTH 3000`. -/
def WINDOW_WIDTH : K := 3000
/-- Window height: `#define WINDOW_HEIGHT 2000`. -/
def WINDOW_HEIGHT : K := 2000
/-- Domain width: `const float VIEW_WIDTH = 1.5 * WINDOW_WIDTH`. -/
def VIEW_WIDTH : K := 3 / 2 * WINDOW_WIDTH K
/-- Domain height: `const float VIEW_HEIGHT = 1.5 * WINDOW_HEIGHT`. -/
def VIEW_HEIGHT : K := 3 / 2 * WINDOW_HEIGHT K

end Constants

/-! ## Particles (lines 91-96) -/

/-- The C struct `particle_t`. -/
structure particle_t (K : Type) where
  /-- position, x component -/
  x : K
  /-- position, y component -/
  y : K
  /-- velocity, x component -/
  vx : K
  /-- velocity, y component -/
  vy : K
  /-- force, x component -/
  fx : K
  /-- force, y component -/
  fy : K
  /-- density -/
  rho : K
  /-- pressure -/
  p : K
deriving DecidableEq

section Kernel
variable {K : Type} [LinearOrderedField K]

/-- Content read from a cell outside the array (never used in bounds). -/
def particle_t.zero : particle_t K := ⟨0, 0, 0, 0, 0, 0, 0, 0⟩

/-- Read `local_data[i]`. -/
def cell (local_data : List (particle_t K)) (i : Nat) : particle_t K :=
  rd particle_t.zero local_data i

/-! ### `compute_density_pressure` (lines 169-194) -/

/-- `const float HSQ = H * H`. -/
def HSQ : K := H K * H K

/-- `const float POLY6 = 4.0 / (M_PI * pow(H, 8))`. -/
def POLY6 (M_PI : K) : K := 4 / (M_PI * H K ^ 8)

/-- Body of the inner loop (lines 182-190) for fixed `i`. -/
def density_inner (M_PI : K) (i j : Nat) (local_data : List (particle_t K)) :
    List (particle_t K) :=
  let pi := cell local_data i
  let pj := cell local_data j
  let dx := pj.x - pi.x
  let dy := pj.y - pi.y
  let d2 := dx * dx + dy * dy
  if d2 < HSQ then
    wr local_data i { pi with rho := pi.rho + MASS K * POLY6 M_PI * (HSQ - d2) ^ 3 }
  else local_data

/-- Body of the outer loop (lines 179-192). -/
def density_outer (M_PI : K) (start stop : Nat) (i : Nat)
    (local_data : List (particle_t K)) : List (particle_t K) :=
  let d0 := wr local_data i { cell local_data i with rho := 0 }
  let d1 := forRange start stop (density_inner M_PI i) d0
  wr d1 i { cell d1 i with p := GAS_CONST K * ((cell d1 i).rho - REST_DENS K) }

/-- The function `compute_density_pressure(local_data, start, end)`. -/
def compute_density_pressure (M_PI : K) (local_data : List (particle_t K))
    (start stop : Nat) : List (particle_t K) :=
  forRange start stop (density_outer M_PI start stop) local_data

/-! ### `compute_forces` (lines 196-236) -/

/-- `const float SPIKY_GRAD = -10.0 / (M_PI * pow(H, 5))`. -/
def SPIKY_GRAD (M_PI : K) : K := -10 / (M_PI * H K ^ 5)

/-- `const float VISC_LAP = 40.0 / (M_PI * pow(H, 5))`. -/
def VISC_LAP (M_PI : K) : K := 40 / (M_PI * H K ^ 5)

/-- The local `const float EPS = 1e-6` of `compute_forces`, which shadows
the global `EPS`. -/
def EPS_dist : K := 1 / 1000000

/-- The four accumulators `fpress_x, fpress_y, fvisc_x, fvisc_y`. -/
structure force_acc (K : Type) where
  /-- pressure force, x component -/
  fpress_x : K
  /-- pressure force, y component -/
  fpress_y : K
  /-- viscosity force, x component -/
  fvisc_x : K
  /-- viscosity force, y component -/
  fvisc_y : K

/-- Body of the inner loop (lines 211-229) for fixed `i`; the array is only
read. -/
def forces_inner (M_PI : K) (hypotf : K → K → K) (local_data : List (particle_t K))
    (i j : Nat) (acc : force_acc K) : force_acc K :=
  let pi := cell local_data i
  let pj := cell local_data j
  if i = j then acc
  else
    let dx := pj.x - pi.x
    let dy := pj.y - pi.y
    let dist := hypotf dx dy + EPS_dist
    if dist < H K then
      let norm_dx := dx / dist
      let norm_dy := dy / dist
      { fpress_x := acc.fpress_x +
          -norm_dx * MASS K * (pi.p + pj.p) / (2 * pj.rho) * SPIKY_GRAD M_PI * (H K - dist) ^ 3
        fpress_y := acc.fpress_y +
          -norm_dy * MASS K * (pi.p + pj.p) / (2 * pj.rho) * SPIKY_GRAD M_PI * (H K - dist) ^ 3
        fvisc_x := acc.fvisc_x +
          VISC K * MASS K * (pj.vx - pi.vx) / pj.rho * VISC_LAP M_PI * (H K - dist)
        fvisc_y := acc.fvisc_y +
          VISC K * MASS K * (pj.vy - pi.vy) / pj.rho * VISC_LAP M_PI * (H K - dist) }
    else acc

/-- Body of the outer loop (lines 206-234). -/
def forces_outer (M_PI : K) (hypotf : K → K → K) (start stop : Nat) (i : Nat)
    (local_data : List (particle_t K)) : List (particle_t K) :=
  let pi := cell local_data i
  let acc := forRange start stop (forces_inner M_PI hypotf local_data i) ⟨0, 0, 0, 0⟩
  let fgrav_x := Gx K * MASS K / pi.rho
  let fgrav_y := Gy K * MASS K / pi.rho
  wr local_data i
    { pi with fx := acc.fpress_x + acc.fvisc_x + fgrav_x
              fy := acc.fpress_y + acc.fvisc_y + fgrav_y }

/-- The function `compute_forces(local_data, start, end)`. -/
def compute_forces (M_PI : K) (hypotf : K → K → K) (local_data : List (particle_t K))
    (start stop : Nat) : List (particle_t K) :=
  forRange start stop (forces_outer M_PI hypotf start stop) local_data

/-! ### `integrate` (lines 238-266) -/

/-- The four assignments under `// forward Euler integration`
(lines 243-246). -/
def forward_euler (p : particle_t K) : particle_t K :=
  let p := { p with vx := p.vx + DT K * p.fx / p.rho }
  let p := { p with vy := p.vy + DT K * p.fy / p.rho }
  let p := { p with x := p.x + DT K * p.vx }
  let p := { p with y := p.y + DT K * p.vy }
  p

/-- The four tests under `// enforce boundary conditions` (lines 249-264). -/
def enforce_boundary (p : particle_t K) : particle_t K :=
  let p := if p.x - EPS K < 0 then
      { p with vx := p.vx * BOUND_DAMPING K, x := EPS K } else p
  let p := if p.x + EPS K > VIEW_WIDTH K then
      { p with vx := p.vx * BOUND_DAMPING K, x := VIEW_WIDTH K - EPS K } else p
  let p := if p.y - EPS K < 0 then
      { p with vy := p.vy * BOUND_DAMPING K, y := EPS K } else p
  let p := if p.y + EPS K > VIEW_HEIGHT K then
      { p with vy := p.vy * BOUND_DAMPING K, y := VIEW_HEIGHT K - EPS K } else p
  p

/-- Body of the loop of `integrate` (lines 241-264): the particle
`local_data[i]` is updated in place. -/
def integrate_body (i : Nat) (local_data : List (particle_t K)) : List (particle_t K) :=
  wr local_data i (enforce_boundary (forward_euler (cell local_data i)))

/-- The function `integrate(local_data, start, end)`. -/
def integrate (local_data : List (particle_t K)) (start stop : Nat) :
    List (particle_t K) :=
  forRange start stop integrate_body local_data

end Kernel

/-! ## The rest of the physics step and the driver -/

/-- The receive size `n_local` that a rank computes for itself
(lines 461-464). -/
def n_local (n_particles nproc rank : Nat) : Nat :=
  let n_local := n_particles / nproc
  if rank = nproc - 1 then n_local + n_particles % nproc else n_local

section Driver
variable {K : Type} [LinearOrderedField K]

/-- The function `avg_velocities(local_data, local_start, local_end)`
(lines 268-277); `hypot` is the libm function. -/
def avg_velocities (hypot : K → K → K) (local_data : List (particle_t K))
    (local_start local_end : Nat) : K :=
  forRange local_start local_end
    (fun i result =>
      result + hypot (cell local_data i).vx (cell local_data i).vy / (local_end : K)) 0

/-- The function `update(local_data, local_start, local_end)` (lines 279-284). -/
def update (M_PI : K) (hypotf : K → K → K) (local_data : List (particle_t K))
    (local_start local_end : Nat) : List (particle_t K) :=
  let d := compute_density_pressure M_PI local_data local_start local_end
  let d := compute_forces M_PI hypotf d local_start local_end
  integrate d local_start local_end

/-- The value `global_avg` on the coordinator after lines 491-498 of one step:
every rank calls `avg_velocities(local_data, 0, n_local)` on its shard,
`MPI_Reduce` adds the results up, and rank 0 divides by `nproc`.  The list
holds the shard of every rank, in rank order. -/
def global_avg (hypot : K → K → K) (shards : List (List (particle_t K))) : K :=
  (shards.map (fun local_data => avg_velocities hypot local_data 0 local_data.length)).sum /
    (shards.length : K)

/-! ### Seeding (lines 109-163) -/

/-- The function `init_particle(p, x, y)`: the record written to `*p`. -/
def init_particle (x y : K) : particle_t K :=
  { x := x, y := y, vx := 0, vy := 0, fx := 0, fy := 0, rho := 0, p := 0 }

/-- The globals `particles`, `n_particles` and the number of calls made to
`rand()` so far. -/
structure seed_state (K : Type) where
  /-- the array `particles` -/
  particles : List (particle_t K)
  /-- the counter `n_particles` -/
  n_particles : Nat
  /-- how many times `rand()` was called -/
  rand_calls : Nat

/-- The inner loop of `init_sph` (lines 152-160) from the column `x` on, for
the row `y`.  The stream `rand` lists the values that `rand()` returns.  The
flag of the result tells whether `return` (line 158) was executed; `none`
means that the fuel ran out. -/
def init_sph_x (rand : Nat → Nat) (RAND_MAX : Nat) (n : Int) (y : K) :
    Nat → K → seed_state K → Option (seed_state K × Bool)
  | 0, _, _ => none
  | fuel + 1, x, st =>
    if x ≤ VIEW_WIDTH K * (4 / 5) then
      if (st.n_particles : Int) < n then
        let jitter : K := (rand st.rand_calls : K) / (RAND_MAX : K)
        init_sph_x rand RAND_MAX n y fuel (x + H K)
          { particles := wr st.particles st.n_particles (init_particle (x + jitter) y)
            n_particles := st.n_particles + 1
            rand_calls := st.rand_calls + 1 }
      else some (st, true)
    else some (st, false)

/-- The outer loop of `init_sph` (lines 151-161) from the row `y` on; every
inner loop gets the fuel `fuel_x`. -/
def init_sph_y (rand : Nat → Nat) (RAND_MAX : Nat) (n : Int) (fuel_x : Nat) :
    Nat → K → seed_state K → Option (seed_state K × Bool)
  | 0, _, _ => none
  | fuel + 1, y, st =>
    if y < VIEW_HEIGHT K - EPS K then
      match init_sph_x rand RAND_MAX n y fuel_x (EPS K) st with
      | none => none
      | some (st1, true) => some (st1, true)
      | some (st1, false) => init_sph_y rand RAND_MAX n fuel_x fuel (y + H K) st1
    else some (st, false)

/-- How a call of `init_sph` can fail to give a seeded state. -/
inductive init_error where
  /-- the fuel of the model ran out -/
  | out_of_fuel
  /-- `assert(n_particles == n)` (line 162) failed -/
  | assertion_failed
deriving DecidableEq

/-- The function `init_sph(n)` on the array `particles`. -/
def init_sph (rand : Nat → Nat) (RAND_MAX : Nat) (fuel : Nat)
    (particles : List (particle_t K)) (n : Int) : Except init_error (seed_state K) :=
  match init_sph_y rand RAND_MAX n fuel fuel (EPS K)
      { particles := particles, n_particles := 0, rand_calls := 0 } with
  | none => Except.error init_error.out_of_fuel
  | some (st, true) => Except.ok st
  | some (st, false) =>
    if (st.n_particles : Int) = n then Except.ok st
    else Except.error init_error.assertion_failed

/-! ### Start-up of `main` on rank 0 (lines 434-453, 486) -/

/-- `const int DAM_PARTICLES = 500`. -/
def DAM_PARTICLES : Int := 500

/-- `EXIT_SUCCESS`. -/
def EXIT_SUCCESS : Nat := 0

/-- `EXIT_FAILURE`. -/
def EXIT_FAILURE : Nat := 1

/-- What `main` does on rank 0, as far as configuration is concerned. -/
inductive main_outcome (K : Type) where
  /-- `return EXIT_FAILURE` at line 440 (`argc > 3`) -/
  | usage_error
  /-- `return EXIT_FAILURE` at line 449 (`n > MAX_PARTICLES`) -/
  | too_many_particles
  /-- `init_sph` was called and did not return a seeded state -/
  | init_failed (e : init_error)
  /-- `init_sph` returned `st`, the loop at line 486 ran `steps` times and
  `main` returned `EXIT_SUCCESS` -/
  | completed (st : seed_state K) (steps : Nat)

/-- The start-up code of `main` on rank 0; `arg1` and `arg2` are `atoi(argv[1])`
and `atoi(argv[2])`. -/
def main_rank0 (rand : Nat → Nat) (RAND_MAX : Nat) (fuel : Nat)
    (particles : List (particle_t K)) (argc : Nat) (arg1 arg2 : Int) : main_outcome K :=
  let n := DAM_PARTICLES
  let nsteps : Int := 50
  if argc > 3 then main_outcome.usage_error
  else
    let n := if argc > 1 then arg1 else n
    if n > (MAX_PARTICLES : Int) then main_outcome.too_many_particles
    else
      match init_sph rand RAND_MAX fuel particles n with
      | Except.error e => main_outcome.init_failed e
      | Except.ok st =>
        let nsteps := if argc > 2 then arg2 else nsteps
        main_outcome.completed st nsteps.toNat

/-- The exit status of `main`, when it returns. -/
def main_outcome.exit_code : main_outcome K → Option Nat
  | main_outcome.usage_error => some EXIT_FAILURE
  | main_outcome.too_many_particles => some EXIT_FAILURE
  | main_outcome.init_failed _ => none
  | main_outcome.completed _ _ => some EXIT_SUCCESS

/-- The state that `init_sph` left, if `init_sph` was called and returned. -/
def main_outcome.seeded : main_outcome K → Option (seed_state K)
  | main_outcome.completed st _ => some st
  | _ => none

/-- Whether `main` reached the call of `init_sph`. -/
def main_outcome.called_init_sph : main_outcome K → Bool
  | main_outcome.init_failed _ => true
  | main_outcome.completed _ _ => true
  | _ => false

/-- How many simulation steps ran. -/
def main_outcome.steps_run : main_outcome K → Nat
  | main_outcome.completed _ steps => steps
  | _ => 0

end Driver

/-! ## Vocabulary of the statements -/

/-- The count that line 472-475 gives to worker `i`, as a closed expression. -/
def count_of (n_particles nproc i : Nat) : Nat :=
  if i = nproc - 1 then n_particles / nproc + n_particles % nproc else n_particles / nproc

/-- Worker `r` owns index `k`: `local_offset[r] ≤ k < local_offset[r] + local_count[r]`. -/
def owns (n_particles nproc r k : Nat) : Prop :=
  ∃ o c, (local_offset n_particles nproc)[r]? = some o ∧
    (local_count n_particles nproc)[r]? = some c ∧ o ≤ k ∧ k < o + c

section Vocabulary
variable {K : Type} [LinearOrderedField K]

/-- Squared distance `d2 = dx*dx + dy*dy` between particles `pi` and `pj`
(lines 184-186). -/
def sqdist (pi pj : particle_t K) : K :=
  (pj.x - pi.x) * (pj.x - pi.x) + (pj.y - pi.y) * (pj.y - pi.y)

/-- What one neighbour at squared distance `d2` adds to `rho`
(lines 188-190). -/
def density_term (M_PI : K) (d2 : K) : K :=
  if d2 < HSQ then MASS K * POLY6 M_PI * (HSQ - d2) ^ 3 else 0

/-- The value `rho` accumulated for particle `i` over the range. -/
def rho_sum (M_PI : K) (a : List (particle_t K)) (start stop i : Nat) : K :=
  ∑ k ∈ Finset.Ico start stop, density_term M_PI (sqdist (cell a i) (cell a k))

/-- The value `rho` accumulated for a particle `q` when the range is the
whole list `a`. -/
def rho_list (M_PI : K) (a : List (particle_t K)) (q : particle_t K) : K :=
  (a.map (fun pj => density_term M_PI (sqdist q pj))).sum

/-- The particle `q` after the density pass gave it the density `r`. -/
def with_density (q : particle_t K) (r : K) : particle_t K :=
  { q with rho := r, p := GAS_CONST K * (r - REST_DENS K) }

/-- The divisor `dist = hypotf(dx, dy) + EPS` of line 218 for the pair
`(pi, pj)`. -/
def dist_eps (hypotf : K → K → K) (pi pj : particle_t K) : K :=
  hypotf (pj.x - pi.x) (pj.y - pi.y) + EPS_dist

/-- The accumulators of `compute_forces` for particle `i` when the array is
`a` during the whole inner loop. -/
def force_acc_of (M_PI : K) (hypotf : K → K → K) (a : List (particle_t K))
    (start stop i : Nat) : force_acc K :=
  forRange start stop (forces_inner M_PI hypotf a i) ⟨0, 0, 0, 0⟩

/-- The particle `q` after the force pass stored the accumulators `acc` and
gravity (lines 231-234). -/
def with_force (q : particle_t K) (acc : force_acc K) : particle_t K :=
  { q with fx := acc.fpress_x + acc.fvisc_x + Gx K * MASS K / q.rho
           fy := acc.fpress_y + acc.fvisc_y + Gy K * MASS K / q.rho }

/-- Two records that differ at most in the force accumulator. -/
def same_but_force (p q : particle_t K) : Prop :=
  p.x = q.x ∧ p.y = q.y ∧ p.vx = q.vx ∧ p.vy = q.vy ∧ p.rho = q.rho ∧ p.p = q.p

/-- A seeded particle: at rest, all accumulators zero, inside the domain. -/
def seeded_ok (q : particle_t K) : Prop :=
  q.vx = 0 ∧ q.vy = 0 ∧ q.fx = 0 ∧ q.fy = 0 ∧ q.rho = 0 ∧ q.p = 0 ∧
    EPS K ≤ q.x ∧ q.x ≤ VIEW_WIDTH K - EPS K ∧ EPS K ≤ q.y ∧ q.y ≤ VIEW_HEIGHT K - EPS K

/-- The speed of a particle, as `avg_velocities` computes it. -/
def speed (hypot : K → K → K) (q : particle_t K) : K := hypot q.vx q.vy

/-- The mean of the speeds of all the particles of all the shards. -/
def mean_speed (hypot : K → K → K) (shards : List (List (particle_t K))) : K :=
  (shards.flatten.map (speed hypot)).sum / (shards.flatten.length : K)

/-- What the neighbour `pj` adds to the four accumulators of `pi`
(lines 220-229): nothing unless `dist < H`. -/
def pair_force (M_PI : K) (hypotf : K → K → K) (pi pj : particle_t K) : force_acc K :=
  if dist_eps hypotf pi pj < H K then
    { fpress_x := -((pj.x - pi.x) / dist_eps hypotf pi pj) * MASS K * (pi.p + pj.p) /
        (2 * pj.rho) * SPIKY_GRAD M_PI * (H K - dist_eps hypotf pi pj) ^ 3
      fpress_y := -((pj.y - pi.y) / dist_eps hypotf pi pj) * MASS K * (pi.p + pj.p) /
        (2 * pj.rho) * SPIKY_GRAD M_PI * (H K - dist_eps hypotf pi pj) ^ 3
      fvisc_x := VISC K * MASS K * (pj.vx - pi.vx) / pj.rho * VISC_LAP M_PI *
        (H K - dist_eps hypotf pi pj)
      fvisc_y := VISC K * MASS K * (pj.vy - pi.vy) / pj.rho * VISC_LAP M_PI *
        (H K - dist_eps hypotf pi pj) }
  else ⟨0, 0, 0, 0⟩

/-- What iteration `j` of the inner loop adds to the accumulators of
particle `i` (nothing when `j = i`). -/
def contribution (M_PI : K) (hypotf : K → K → K) (a : List (particle_t K))
    (i j : Nat) : force_acc K :=
  if i = j then ⟨0, 0, 0, 0⟩ else pair_force M_PI hypotf (cell a i) (cell a j)

/-- What the loops of `init_sph` maintain: the array keeps its `L` cells, at
most `T` particles are placed, and (when `rand()` stays within
`[0, RAND_MAX]`) every placed particle is a seeded one. -/
def seed_inv (rand : Nat → Nat) (RAND_MAX : Nat) (L T : Nat) (st : seed_state K) : Prop :=
  st.particles.length = L ∧ st.n_particles ≤ T ∧
  ((0 < RAND_MAX ∧ ∀ k, rand k ≤ RAND_MAX) →
    ∀ i, i < st.n_particles → seeded_ok (cell st.particles i))

end Vocabulary

/-! ## Generic facts about loops and arrays -/

theorem forRange_empty {σ : Type} (start stop : Nat) (body : Nat → σ → σ) (s : σ)
    (h : stop ≤ start) : forRange start stop body s = s := by
  unfold forRange
  rw [Nat.sub_eq_zero_of_le h]
  rfl

theorem forRange_succ {σ : Type} (start stop : Nat) (body : Nat → σ → σ) (s : σ)
    (h : start ≤ stop) :
    forRange start (stop + 1) body s = body stop (forRange start stop body s) := by
  unfold forRange
  have e : stop + 1 - start = (stop - start) + 1 := by omega
  rw [e, List.range_succ, List.foldl_append]
  simp only [List.foldl_cons, List.foldl_nil]
  congr 1
  omega

theorem length_wr {α : Type} (a : List α) (i : Nat) (v : α) :
    (wr a i v).length = a.length := by
  simp [wr]

theorem rd_wr_same {α : Type} (d : α) (a : List α) (i : Nat) (v : α)
    (h : i < a.length) : rd d (wr a i v) i = v := by
  simp [rd, wr, h]

theorem rd_wr_ne {α : Type} (d : α) (a : List α) (i j : Nat) (v : α)
    (h : i ≠ j) : rd d (wr a i v) j = rd d a j := by
  simp [rd, wr, List.getElem?_set_ne h]

/-! ## The partitioner -/

theorem partition_loop_spec (n_particles nproc : Nat) (c0 o0 : List Nat)
    (hc : c0.length = nproc) (ho : o0.length = nproc) (k : Nat) (hk : k ≤ nproc) :
    let st := forRange 0 k (partition_body n_particles nproc) (c0, o0)
    st.1.length = nproc ∧ st.2.length = nproc ∧
    (∀ i, i < k → rd 0 st.1 i = count_of n_particles nproc i) ∧
    (∀ i, i < k → rd 0 st.2 i = i * (n_particles / nproc)) := by
  induction k with
  | zero =>
    simp only [forRange_empty 0 0 _ _ (Nat.le_refl 0)]
    exact ⟨hc, ho, fun i hi => absurd hi (Nat.not_lt_zero i),
      fun i hi => absurd hi (Nat.not_lt_zero i)⟩
  | succ k ih =>
    have hk1 : k ≤ nproc := Nat.le_of_succ_le hk
    obtain ⟨h1, h2, h3, h4⟩ := ih hk1
    rw [forRange_succ 0 k _ _ (Nat.zero_le k)]
    generalize forRange 0 k (partition_body n_particles nproc) (c0, o0) = st at h1 h2 h3 h4
    have hkc : k < st.1.length := by omega
    have hko : k < st.2.length := by omega
    refine ⟨?_, ?_, ?_, ?_⟩
    · unfold partition_body
      by_cases hl : k = nproc - 1 <;> simp [hl, length_wr, h1]
    · simp [partition_body, length_wr, h2]
    · intro i hi
      by_cases hik : i = k
      · subst hik
        unfold partition_body count_of
        by_cases hl : i = nproc - 1
        · simp only [if_pos hl]
          rw [rd_wr_same 0 _ _ _ (by rw [length_wr]; exact hkc), rd_wr_same 0 _ _ _ hkc]
        · simp only [if_neg hl]
          rw [rd_wr_same 0 _ _ _ hkc]
      · have hne : k ≠ i := fun e => hik e.symm
        have hlt : i < k := by omega
        unfold partition_body
        by_cases hl : k = nproc - 1
        · simp only [if_pos hl]
          rw [rd_wr_ne 0 _ _ _ _ (hl ▸ hne), rd_wr_ne 0 _ _ _ _ hne]
          exact h3 i hlt
        · simp only [if_neg hl]
          rw [rd_wr_ne 0 _ _ _ _ hne]
          exact h3 i hlt
    · intro i hi
      by_cases hik : i = k
      · subst hik
        simp only [partition_body]
        rw [rd_wr_same 0 _ _ _ hko]
      · have hne : k ≠ i := fun e => hik e.symm
        have hlt : i < k := by omega
        simp only [partition_body]
        rw [rd_wr_ne 0 _ _ _ _ hne]
        exact h4 i hlt

theorem local_count_length (n_particles nproc : Nat) :
    (local_count n_particles nproc).length = nproc :=
  (partition_loop_spec n_particles nproc _ _ (List.length_replicate _ _)
    (List.length_replicate _ _) nproc (Nat.le_refl _)).1

theorem local_offset_length (n_particles nproc : Nat) :
    (local_offset n_particles nproc).length = nproc :=
  (partition_loop_spec n_particles nproc _ _ (List.length_replicate _ _)
    (List.length_replicate _ _) nproc (Nat.le_refl _)).2.1

theorem local_count_rd (n_particles nproc i : Nat) (hi : i < nproc) :
    rd 0 (local_count n_particles nproc) i = count_of n_particles nproc i :=
  (partition_loop_spec n_particles nproc _ _ (List.length_replicate _ _)
    (List.length_replicate _ _) nproc (Nat.le_refl _)).2.2.1 i hi

theorem local_offset_rd (n_particles nproc i : Nat) (hi : i < nproc) :
    rd 0 (local_offset n_particles nproc) i = i * (n_particles / nproc) :=
  (partition_loop_spec n_particles nproc _ _ (List.length_replicate _ _)
    (List.length_replicate _ _) nproc (Nat.le_refl _)).2.2.2 i hi

theorem rd_eq_getElem {α : Type} (d : α) (a : List α) (i : Nat) (h : i < a.length) :
    rd d a i = a[i] := by
  simp [rd, h]

theorem local_count_eq_map (n_particles nproc : Nat) :
    local_count n_particles nproc = (List.range nproc).map (count_of n_particles nproc) := by
  apply List.ext_getElem
  · simp [local_count_length]
  · intro i h1 h2
    have hi : i < nproc := by rw [local_count_length] at h1; exact h1
    rw [← rd_eq_getElem 0 _ i h1, local_count_rd _ _ _ hi]
    simp

theorem sum_map_count_of (n_particles nproc k : Nat) (hk : k < nproc) :
    ((List.range k).map (count_of n_particles nproc)).sum = k * (n_particles / nproc) := by
  induction k with
  | zero => simp
  | succ k ih =>
    rw [List.range_succ, List.map_append, List.sum_append, ih (by omega)]
    have : k ≠ nproc - 1 := by omega
    simp [count_of, this, Nat.succ_mul]

theorem getElem?_of_rd {α : Type} (d : α) (a : List α) (i : Nat) (h : i < a.length) :
    a[i]? = some (rd d a i) := by
  simp [rd, h]

theorem local_count_get (n_particles nproc i : Nat) (hi : i < nproc) :
    (local_count n_particles nproc)[i]? = some (count_of n_particles nproc i) := by
  rw [getElem?_of_rd 0 _ i (by rw [local_count_length]; exact hi), local_count_rd _ _ _ hi]

theorem local_offset_get (n_particles nproc i : Nat) (hi : i < nproc) :
    (local_offset n_particles nproc)[i]? = some (i * (n_particles / nproc)) := by
  rw [getElem?_of_rd 0 _ i (by rw [local_offset_length]; exact hi), local_offset_rd _ _ _ hi]

theorem local_count_take_sum (n_particles nproc i : Nat) (hi : i < nproc) :
    ((local_count n_particles nproc).take i).sum = i * (n_particles / nproc) := by
  rw [local_count_eq_map, ← List.map_take, List.take_range,
    Nat.min_eq_left (Nat.le_of_lt hi)]
  exact sum_map_count_of n_particles nproc i hi

/-- C1: for every particle count `N` and every worker count `P ≥ 1`, the
counts written by the partitioner loop (one per worker, `P` of them) sum to
exactly `N`. -/
theorem partition_counts_sum (N P : Nat) (hP : 1 ≤ P) :
    (local_count N P).length = P ∧ (local_count N P).sum = N := by
  refine ⟨local_count_length N P, ?_⟩
  obtain ⟨m, rfl⟩ : ∃ m, P = m + 1 := ⟨P - 1, by omega⟩
  rw [local_count_eq_map, List.range_succ, List.map_append, List.sum_append,
    sum_map_count_of N (m + 1) m (Nat.lt_succ_self m)]
  simp only [List.map_cons, List.map_nil, List.sum_cons, List.sum_nil, count_of,
    Nat.add_sub_cancel, if_true, Nat.add_zero]
  have h := Nat.div_add_mod N (m + 1)
  have e : m * (N / (m + 1)) + N / (m + 1) = (m + 1) * (N / (m + 1)) := by ring
  omega

/-- Witness for C1: ten particles on four workers. -/
theorem partition_counts_sum_witness :
    1 ≤ 4 ∧ (local_count 10 4).length = 4 ∧ (local_count 10 4).sum = 10 :=
  ⟨by decide, partition_counts_sum 10 4 (by decide)⟩

/-- C2: for every `N` and `P ≥ 1`, every worker `i < P-1` gets `N / P`, the
last worker gets `N / P + N % P`; in particular when `P > N` every worker but
the last gets an empty shard, and when `P = 1` the single shard has the
count `N`. -/
theorem partition_remainder_last (N P : Nat) (hP : 1 ≤ P) :
    (∀ i, i < P - 1 → (local_count N P)[i]? = some (N / P)) ∧
    (local_count N P)[P - 1]? = some (N / P + N % P) ∧
    (N < P → ∀ i, i < P - 1 → (local_count N P)[i]? = some 0) ∧
    (P = 1 → local_count N P = [N]) := by
  have hlast : (local_count N P)[P - 1]? = some (N / P + N % P) := by
    rw [local_count_get N P (P - 1) (by omega)]
    simp [count_of]
  have hother : ∀ i, i < P - 1 → (local_count N P)[i]? = some (N / P) := by
    intro i hi
    rw [local_count_get N P i (by omega)]
    have : i ≠ P - 1 := by omega
    simp [count_of, this]
  refine ⟨hother, hlast, ?_, ?_⟩
  · intro hN i hi
    rw [hother i hi, Nat.div_eq_of_lt hN]
  · intro h1
    subst h1
    rw [local_count_eq_map]
    simp [List.range_succ, count_of, Nat.mod_one]

/-- Witness for C2: ten particles on four workers. -/
theorem partition_remainder_last_witness :
    1 ≤ 4 ∧ (local_count 10 4)[3]? = some (10 / 4 + 10 % 4) :=
  ⟨by decide, (partition_remainder_last 10 4 (by decide)).2.1⟩

/-- C3: for every `N` and `P ≥ 1`, `local_offset[0] = 0`, every offset is the
sum of the counts of the preceding workers, and
`local_offset[i+1] = local_offset[i] + local_count[i]` whenever `i+1 < P`. -/
theorem partition_offsets_contiguous (N P : Nat) (hP : 1 ≤ P) :
    (local_offset N P)[0]? = some 0 ∧
    (∀ i, i < P → (local_offset N P)[i]? = some ((local_count N P).take i).sum) ∧
    (∀ i, i + 1 < P → ∃ o c, (local_offset N P)[i]? = some o ∧
      (local_count N P)[i]? = some c ∧ (local_offset N P)[i + 1]? = some (o + c)) := by
  refine ⟨?_, ?_, ?_⟩
  · rw [local_offset_get N P 0 (by omega), Nat.zero_mul]
  · intro i hi
    rw [local_offset_get N P i hi, local_count_take_sum N P i hi]
  · intro i hi
    refine ⟨i * (N / P), N / P, local_offset_get N P i (by omega), ?_, ?_⟩
    · rw [local_count_get N P i (by omega)]
      have : i ≠ P - 1 := by omega
      simp [count_of, this]
    · rw [local_offset_get N P (i + 1) hi, Nat.succ_mul]

/-- Witness for C3: ten particles on four workers. -/
theorem partition_offsets_contiguous_witness :
    1 ≤ 4 ∧ (local_offset 10 4)[0]? = some 0 :=
  ⟨by decide, (partition_offsets_contiguous 10 4 (by decide)).1⟩

/-- C4, as stated, fails: with `N = 3` particles on `P = 4` workers
(`N ≤ MAX_PARTICLES`, `P ≥ 1`) the offsets of workers 0 and 1 are both `0`. -/
theorem partition_offsets_not_strict :
    ¬ (∀ N P : Nat, N ≤ MAX_PARTICLES → 1 ≤ P → ∀ i, i + 1 < P →
        ∃ a b, (local_offset N P)[i]? = some a ∧ (local_offset N P)[i + 1]? = some b ∧
          a < b) := by
  intro h
  obtain ⟨a, b, ha, hb, hab⟩ := h 3 4 (by decide) (by decide) 0 (by decide)
  rw [local_offset_get 3 4 0 (by decide)] at ha
  rw [local_offset_get 3 4 1 (by decide)] at hb
  simp at ha hb
  omega

/-- C4, amended: for `N ≤ MAX_PARTICLES` and `P ≥ 1` the offsets never
decrease; they are strictly increasing exactly when `P ≤ N`, and they are
all `0` when `P > N`. -/
theorem partition_offsets_monotone (N P : Nat) (_hN : N ≤ MAX_PARTICLES) (hP : 1 ≤ P) :
    (∀ i, i + 1 < P → ∃ a b, (local_offset N P)[i]? = some a ∧
      (local_offset N P)[i + 1]? = some b ∧ a ≤ b) ∧
    (P ≤ N → ∀ i, i + 1 < P → ∃ a b, (local_offset N P)[i]? = some a ∧
      (local_offset N P)[i + 1]? = some b ∧ a < b) ∧
    (N < P → ∀ i, i < P → (local_offset N P)[i]? = some 0) := by
  refine ⟨?_, ?_, ?_⟩
  · intro i hi
    refine ⟨_, _, local_offset_get N P i (by omega), local_offset_get N P (i + 1) hi, ?_⟩
    exact Nat.mul_le_mul_right _ (Nat.le_succ i)
  · intro hPN i hi
    refine ⟨_, _, local_offset_get N P i (by omega), local_offset_get N P (i + 1) hi, ?_⟩
    have hq : 0 < N / P := Nat.div_pos hPN (by omega)
    rw [Nat.succ_mul]
    omega
  · intro hNP i hi
    rw [local_offset_get N P i hi, Nat.div_eq_of_lt hNP, Nat.mul_zero]

/-- Witness for amended C4: ten particles on four workers. -/
theorem partition_offsets_monotone_witness :
    10 ≤ MAX_PARTICLES ∧ 1 ≤ 4 ∧
    ∃ a b, (local_offset 10 4)[0]? = some a ∧ (local_offset 10 4)[1]? = some b ∧ a < b :=
  ⟨by decide, by decide,
    (partition_offsets_monotone 10 4 (by decide) (by decide)).2.1 (by decide) 0 (by decide)⟩

theorem owns_iff (N P r k : Nat) :
    owns N P r k ↔ r < P ∧ r * (N / P) ≤ k ∧ k < r * (N / P) + count_of N P r := by
  constructor
  · rintro ⟨o, c, ho, hc, h1, h2⟩
    have hr : r < P := by
      by_contra hn
      have : (local_offset N P).length ≤ r := by rw [local_offset_length]; omega
      rw [List.getElem?_eq_none this] at ho
      exact Option.noConfusion ho
    rw [local_offset_get N P r hr] at ho
    rw [local_count_get N P r hr] at hc
    have ho2 := Option.some.inj ho
    have hc2 := Option.some.inj hc
    subst ho2 hc2
    exact ⟨hr, h1, h2⟩
  · rintro ⟨hr, h1, h2⟩
    exact ⟨_, _, local_offset_get N P r hr, local_count_get N P r hr, h1, h2⟩

/-- C5: for every `N` and `P ≥ 1` the ranges
`[local_offset[r], local_offset[r] + local_count[r])`, `r < P`, partition
`{0, ..., N-1}`: every `k < N` is owned by exactly one worker and no range
reaches beyond `N`. -/
theorem partition_shards_exact (N P : Nat) (hP : 1 ≤ P) :
    (∀ k, k < N → ∃! r, owns N P r k) ∧
    (∀ r k, owns N P r k → k < N) := by
  have hdm := Nat.div_add_mod N P
  have hmod : N % P < P := Nat.mod_lt N (by omega)
  have hlastoff : (P - 1) * (N / P) + N / P = P * (N / P) := by
    have h : (P - 1 + 1) * (N / P) = P * (N / P) := by rw [Nat.sub_add_cancel hP]
    rw [Nat.succ_mul] at h
    exact h
  constructor
  · intro k hk
    by_cases hcase : k < (P - 1) * (N / P)
    · have hq : 0 < N / P := by
        rcases Nat.eq_zero_or_pos (N / P) with h0 | h0
        · rw [h0] at hcase; simp at hcase
        · exact h0
      have hr : k / (N / P) < P - 1 := (Nat.div_lt_iff_lt_mul hq).2 hcase
      have hne : k / (N / P) ≠ P - 1 := by omega
      have hlo : k / (N / P) * (N / P) ≤ k := Nat.div_mul_le_self k (N / P)
      have hhi : k < k / (N / P) * (N / P) + N / P := by
        have h1 := Nat.div_add_mod k (N / P)
        have h2 := Nat.mod_lt k hq
        rw [Nat.mul_comm] at h1
        omega
      refine ⟨k / (N / P), (owns_iff N P _ k).2 ⟨by omega, hlo, ?_⟩, ?_⟩
      · simp only [count_of, if_neg hne]
        exact hhi
      · intro r hr2
        obtain ⟨hrP, h1, h2⟩ := (owns_iff N P r k).1 hr2
        by_cases hrl : r = P - 1
        · subst hrl
          omega
        · simp only [count_of, if_neg hrl] at h2
          symm
          apply Nat.div_eq_of_lt_le
          · exact h1
          · rw [Nat.succ_mul]
            exact h2
    · have hge : (P - 1) * (N / P) ≤ k := Nat.le_of_not_lt hcase
      refine ⟨P - 1, (owns_iff N P _ k).2 ⟨by omega, hge, ?_⟩, ?_⟩
      · simp only [count_of, if_true]
        omega
      · intro r hr2
        obtain ⟨hrP, h1, h2⟩ := (owns_iff N P r k).1 hr2
        by_contra hrl
        simp only [count_of, if_neg hrl] at h2
        have hrlt : r + 1 ≤ P - 1 := by omega
        have : (r + 1) * (N / P) ≤ (P - 1) * (N / P) := Nat.mul_le_mul_right _ hrlt
        rw [Nat.succ_mul] at this
        omega
  · intro r k hr2
    obtain ⟨hrP, h1, h2⟩ := (owns_iff N P r k).1 hr2
    by_cases hrl : r = P - 1
    · subst hrl
      simp only [count_of, if_true] at h2
      omega
    · simp only [count_of, if_neg hrl] at h2
      have hrlt : r + 1 ≤ P - 1 := by omega
      have : (r + 1) * (N / P) ≤ (P - 1) * (N / P) := Nat.mul_le_mul_right _ hrlt
      rw [Nat.succ_mul] at this
      omega

/-- Witness for C5: ten particles on four workers; index 7 is owned by the
last worker only. -/
theorem partition_shards_exact_witness :
    1 ≤ 4 ∧ ∃! r, owns 10 4 r 7 :=
  ⟨by decide, (partition_shards_exact 10 4 (by decide)).1 7 (by decide)⟩

/-! ## Array facts for particles -/

section KernelFacts
variable {K : Type} [LinearOrderedField K]

theorem cell_wr_same (a : List (particle_t K)) (i : Nat) (v : particle_t K)
    (h : i < a.length) : cell (wr a i v) i = v :=
  rd_wr_same _ a i v h

theorem cell_wr_ne (a : List (particle_t K)) (i j : Nat) (v : particle_t K)
    (h : i ≠ j) : cell (wr a i v) j = cell a j :=
  rd_wr_ne _ a i j v h

theorem cell_wr (a : List (particle_t K)) (i j : Nat) (v : particle_t K)
    (h : i < a.length) : cell (wr a i v) j = if i = j then v else cell a j := by
  by_cases e : i = j
  · subst e
    rw [if_pos rfl, cell_wr_same a i v h]
  · rw [if_neg e, cell_wr_ne a i j v e]

/-- A loop that rewrites each cell of the range from its own content. -/
theorem forRange_cellwise (f : particle_t K → particle_t K) (a : List (particle_t K))
    (start stop : Nat) (hstop : stop ≤ a.length) :
    (forRange start stop (fun i d => wr d i (f (cell d i))) a).length = a.length ∧
    ∀ j, cell (forRange start stop (fun i d => wr d i (f (cell d i))) a) j =
      if start ≤ j ∧ j < stop then f (cell a j) else cell a j := by
  induction stop with
  | zero =>
    rw [forRange_empty _ _ _ _ (Nat.zero_le start)]
    refine ⟨rfl, fun j => ?_⟩
    rw [if_neg (fun h => Nat.not_lt_zero j h.2)]
  | succ n ih =>
    by_cases hs : start ≤ n
    · obtain ⟨hl, hc⟩ := ih (Nat.le_of_succ_le hstop)
      rw [forRange_succ _ _ _ _ hs]
      generalize forRange start n (fun i d => wr d i (f (cell d i))) a = d at hl hc
      refine ⟨by rw [length_wr, hl], fun j => ?_⟩
      rw [cell_wr d n j _ (by omega)]
      by_cases e : n = j
      · subst e
        rw [if_pos rfl, hc n, if_neg (fun h => Nat.lt_irrefl n h.2),
          if_pos ⟨hs, Nat.lt_succ_self n⟩]
      · rw [if_neg e, hc j]
        by_cases hj : start ≤ j ∧ j < n
        · rw [if_pos hj, if_pos ⟨hj.1, Nat.lt_succ_of_lt hj.2⟩]
        · rw [if_neg hj, if_neg (fun h => hj ⟨h.1, by omega⟩)]
    · rw [forRange_empty _ _ _ _ (by omega : n + 1 ≤ start)]
      refine ⟨rfl, fun j => ?_⟩
      rw [if_neg (fun h => by omega)]

theorem integrate_length (a : List (particle_t K)) (start stop : Nat)
    (hstop : stop ≤ a.length) : (integrate a start stop).length = a.length :=
  (forRange_cellwise (fun p => enforce_boundary (forward_euler p)) a start stop hstop).1

theorem integrate_cell (a : List (particle_t K)) (start stop : Nat)
    (hstop : stop ≤ a.length) (j : Nat) :
    cell (integrate a start stop) j =
      if start ≤ j ∧ j < stop then enforce_boundary (forward_euler (cell a j))
      else cell a j :=
  (forRange_cellwise (fun p => enforce_boundary (forward_euler p)) a start stop hstop).2 j

theorem enforce_boundary_x (p : particle_t K) :
    EPS K ≤ (enforce_boundary p).x ∧ (enforce_boundary p).x ≤ VIEW_WIDTH K - EPS K := by
  have hc : EPS K ≤ VIEW_WIDTH K - EPS K := by
    unfold EPS VIEW_WIDTH WINDOW_WIDTH
    norm_num
  unfold enforce_boundary
  dsimp only
  split_ifs <;> constructor <;> simp_all <;> linarith

theorem enforce_boundary_y (p : particle_t K) :
    EPS K ≤ (enforce_boundary p).y ∧ (enforce_boundary p).y ≤ VIEW_HEIGHT K - EPS K := by
  have hc : EPS K ≤ VIEW_HEIGHT K - EPS K := by
    unfold EPS VIEW_HEIGHT WINDOW_HEIGHT
    norm_num
  unfold enforce_boundary
  dsimp only
  split_ifs <;> constructor <;> simp_all <;> linarith

theorem cell_of_get {a : List (particle_t K)} {i : Nat} {p : particle_t K}
    (h : a[i]? = some p) : cell a i = p := by
  simp [cell, rd, h]

theorem get_of_cell (a : List (particle_t K)) (i : Nat) (h : i < a.length) :
    a[i]? = some (cell a i) :=
  getElem?_of_rd _ a i h

theorem integrate_get (a : List (particle_t K)) (start stop i : Nat)
    (hstop : stop ≤ a.length) (h1 : start ≤ i) (h2 : i < stop) :
    (integrate a start stop)[i]? = some (enforce_boundary (forward_euler (cell a i))) := by
  rw [get_of_cell _ i (by rw [integrate_length a start stop hstop]; omega),
    integrate_cell a start stop hstop i, if_pos ⟨h1, h2⟩]

/-- C6: after `integrate(local_data, start, end)` every particle of the range
has `x` in `[EPS, VIEW_WIDTH - EPS]` and `y` in `[EPS, VIEW_HEIGHT - EPS]`
(`EPS = 16`, `VIEW_WIDTH = 4500`, `VIEW_HEIGHT = 3000`), whatever the
positions, velocities and forces before the call and whatever the non-zero
densities; both axes are covered at once. -/
theorem integrate_in_domain (local_data : List (particle_t K)) (start stop i : Nat)
    (hstop : stop ≤ local_data.length) (h1 : start ≤ i) (h2 : i < stop)
    (_hrho : ∀ j, start ≤ j → j < stop → (cell local_data j).rho ≠ 0) :
    EPS K = 16 ∧ VIEW_WIDTH K = 4500 ∧ VIEW_HEIGHT K = 3000 ∧
    ∃ q, (integrate local_data start stop)[i]? = some q ∧
      EPS K ≤ q.x ∧ q.x ≤ VIEW_WIDTH K - EPS K ∧
      EPS K ≤ q.y ∧ q.y ≤ VIEW_HEIGHT K - EPS K := by
  refine ⟨rfl, ?_, ?_, _, integrate_get local_data start stop i hstop h1 h2,
    (enforce_boundary_x _).1, (enforce_boundary_x _).2,
    (enforce_boundary_y _).1, (enforce_boundary_y _).2⟩
  · unfold VIEW_WIDTH WINDOW_WIDTH
    norm_num
  · unfold VIEW_HEIGHT WINDOW_HEIGHT
    norm_num

/-- Witness for C6: one particle that leaves the domain through the left
edge and the top edge in the same step. -/
theorem integrate_in_domain_witness :
    ∃ q : particle_t ℚ,
      (integrate [(⟨-5, 4000, -1, 1, 0, 0, 1, 0⟩ : particle_t ℚ)] 0 1)[0]? = some q ∧
      EPS ℚ ≤ q.x ∧ q.x ≤ VIEW_WIDTH ℚ - EPS ℚ ∧
      EPS ℚ ≤ q.y ∧ q.y ≤ VIEW_HEIGHT ℚ - EPS ℚ :=
  (integrate_in_domain [(⟨-5, 4000, -1, 1, 0, 0, 1, 0⟩ : particle_t ℚ)] 0 1 0
    (by decide) (by decide) (by decide)
    (by
      intro j _ hj
      have hj0 : j = 0 := by omega
      subst hj0
      simp [cell, rd])).2.2.2

/-! ## The density pass -/

theorem density_inner_spec (M_PI : K) (d0 : List (particle_t K)) (start i : Nat)
    (hi : i < d0.length) (m : Nat) :
    (forRange start m (density_inner M_PI i) d0).length = d0.length ∧
    ∀ j, cell (forRange start m (density_inner M_PI i) d0) j =
      if i = j then { cell d0 i with rho := (cell d0 i).rho + rho_sum M_PI d0 start m i }
      else cell d0 j := by
  induction m with
  | zero =>
    rw [forRange_empty _ _ _ _ (Nat.zero_le start)]
    refine ⟨rfl, fun j => ?_⟩
    by_cases e : i = j
    · subst e
      simp [rho_sum]
    · rw [if_neg e]
  | succ n ih =>
    by_cases hs : start ≤ n
    · obtain ⟨hl, hc⟩ := ih
      rw [forRange_succ _ _ _ _ hs]
      generalize forRange start n (density_inner M_PI i) d0 = d at hl hc
      have hsum : rho_sum M_PI d0 start (n + 1) i =
          rho_sum M_PI d0 start n i + density_term M_PI (sqdist (cell d0 i) (cell d0 n)) := by
        unfold rho_sum
        rw [Finset.sum_Ico_succ_top hs]
      have hci := hc i
      rw [if_pos rfl] at hci
      have hd2 : sqdist (cell d i) (cell d n) = sqdist (cell d0 i) (cell d0 n) := by
        rw [hci, hc n]
        by_cases e : i = n
        · subst e
          rw [if_pos rfl]
          rfl
        · rw [if_neg e]
          rfl
      have hbody : density_inner M_PI i n d =
          if sqdist (cell d i) (cell d n) < HSQ then
            wr d i { cell d i with
              rho := (cell d i).rho +
                MASS K * POLY6 M_PI * (HSQ - sqdist (cell d i) (cell d n)) ^ 3 }
          else d := rfl
      rw [hbody, hd2, hsum]
      by_cases hlt : sqdist (cell d0 i) (cell d0 n) < (HSQ : K)
      · rw [if_pos hlt]
        refine ⟨by rw [length_wr, hl], fun j => ?_⟩
        rw [cell_wr d i j _ (by omega)]
        by_cases e : i = j
        · rw [if_pos e, if_pos e, hci]
          simp only [density_term, if_pos hlt, add_assoc]
        · rw [if_neg e, if_neg e, hc j, if_neg e]
      · rw [if_neg hlt]
        refine ⟨hl, fun j => ?_⟩
        rw [hc j]
        simp only [density_term, if_neg hlt, add_zero]
    · rw [forRange_empty _ _ _ _ (by omega : n + 1 ≤ start)]
      refine ⟨rfl, fun j => ?_⟩
      by_cases e : i = j
      · subst e
        have : Finset.Ico start (n + 1) = ∅ := Finset.Ico_eq_empty (by omega)
        simp [rho_sum, this]
      · rw [if_neg e]

theorem sqdist_congr {p p' q q' : particle_t K} (hx : p.x = p'.x) (hy : p.y = p'.y)
    (hx' : q.x = q'.x) (hy' : q.y = q'.y) : sqdist p q = sqdist p' q' := by
  unfold sqdist
  rw [hx, hy, hx', hy']

theorem rho_sum_congr (M_PI : K) (a b : List (particle_t K)) (start stop i : Nat)
    (h : ∀ k, (cell a k).x = (cell b k).x ∧ (cell a k).y = (cell b k).y) :
    rho_sum M_PI a start stop i = rho_sum M_PI b start stop i := by
  unfold rho_sum
  apply Finset.sum_congr rfl
  intro k _
  rw [sqdist_congr (h i).1 (h i).2 (h k).1 (h k).2]

theorem density_outer_spec (M_PI : K) (a : List (particle_t K)) (start stop i : Nat)
    (hi : i < a.length) :
    (density_outer M_PI start stop i a).length = a.length ∧
    ∀ j, cell (density_outer M_PI start stop i a) j =
      if i = j then with_density (cell a i) (rho_sum M_PI a start stop i) else cell a j := by
  have hl0 : (wr a i { cell a i with rho := 0 }).length = a.length := length_wr _ _ _
  obtain ⟨hl, hc⟩ := density_inner_spec M_PI (wr a i { cell a i with rho := 0 }) start i
    (by rw [hl0]; exact hi) stop
  have hpos : ∀ k, (cell (wr a i { cell a i with rho := 0 }) k).x = (cell a k).x ∧
      (cell (wr a i { cell a i with rho := 0 }) k).y = (cell a k).y := by
    intro k
    rw [cell_wr a i k _ hi]
    by_cases e : i = k
    · subst e
      rw [if_pos rfl]
      exact ⟨rfl, rfl⟩
    · rw [if_neg e]
      exact ⟨rfl, rfl⟩
  rw [rho_sum_congr M_PI _ a start stop i hpos, cell_wr_same a i _ hi] at hc
  have hbody : density_outer M_PI start stop i a =
      wr (forRange start stop (density_inner M_PI i) (wr a i { cell a i with rho := 0 })) i
        { cell (forRange start stop (density_inner M_PI i) (wr a i { cell a i with rho := 0 })) i
          with p := GAS_CONST K *
            ((cell (forRange start stop (density_inner M_PI i)
              (wr a i { cell a i with rho := 0 })) i).rho - REST_DENS K) } := rfl
  rw [hbody]
  generalize forRange start stop (density_inner M_PI i) (wr a i { cell a i with rho := 0 }) = d
    at hl hc
  refine ⟨by rw [length_wr, hl, hl0], fun j => ?_⟩
  rw [cell_wr d i j _ (by rw [hl, hl0]; exact hi)]
  by_cases e : i = j
  · rw [if_pos e, if_pos e, hc i, if_pos rfl]
    simp only [with_density, zero_add]
  · rw [if_neg e, if_neg e, hc j, if_neg e, cell_wr_ne a i j _ e]

theorem with_density_pos (q : particle_t K) (r : K) :
    (with_density q r).x = q.x ∧ (with_density q r).y = q.y := ⟨rfl, rfl⟩

theorem density_loop_spec (M_PI : K) (a : List (particle_t K)) (start stop : Nat) (m : Nat)
    (hm : m ≤ a.length) :
    (forRange start m (density_outer M_PI start stop) a).length = a.length ∧
    ∀ j, cell (forRange start m (density_outer M_PI start stop) a) j =
      if start ≤ j ∧ j < m then with_density (cell a j) (rho_sum M_PI a start stop j)
      else cell a j := by
  induction m with
  | zero =>
    rw [forRange_empty _ _ _ _ (Nat.zero_le start)]
    refine ⟨rfl, fun j => ?_⟩
    rw [if_neg (fun h => Nat.not_lt_zero j h.2)]
  | succ n ih =>
    by_cases hs : start ≤ n
    · obtain ⟨hl, hc⟩ := ih (Nat.le_of_succ_le hm)
      rw [forRange_succ _ _ _ _ hs]
      generalize forRange start n (density_outer M_PI start stop) a = d at hl hc
      obtain ⟨hl2, hc2⟩ := density_outer_spec M_PI d start stop n (by omega)
      have hpos : ∀ k, (cell d k).x = (cell a k).x ∧ (cell d k).y = (cell a k).y := by
        intro k
        rw [hc k]
        by_cases hk : start ≤ k ∧ k < n
        · rw [if_pos hk]
          exact with_density_pos _ _
        · rw [if_neg hk]
          exact ⟨rfl, rfl⟩
      refine ⟨by rw [hl2, hl], fun j => ?_⟩
      rw [hc2 j, rho_sum_congr M_PI d a start stop n hpos]
      by_cases e : n = j
      · subst e
        rw [if_pos rfl, if_pos ⟨hs, Nat.lt_succ_self n⟩, hc n,
          if_neg (fun h => Nat.lt_irrefl n h.2)]
      · rw [if_neg e, hc j]
        by_cases hj : start ≤ j ∧ j < n
        · rw [if_pos hj, if_pos ⟨hj.1, Nat.lt_succ_of_lt hj.2⟩]
        · rw [if_neg hj, if_neg (fun h => hj ⟨h.1, by omega⟩)]
    · rw [forRange_empty _ _ _ _ (by omega : n + 1 ≤ start)]
      refine ⟨rfl, fun j => ?_⟩
      rw [if_neg (fun h => by omega)]

theorem density_length (M_PI : K) (a : List (particle_t K)) (start stop : Nat)
    (hstop : stop ≤ a.length) :
    (compute_density_pressure M_PI a start stop).length = a.length :=
  (density_loop_spec M_PI a start stop stop hstop).1

theorem density_cell (M_PI : K) (a : List (particle_t K)) (start stop : Nat)
    (hstop : stop ≤ a.length) (j : Nat) :
    cell (compute_density_pressure M_PI a start stop) j =
      if start ≤ j ∧ j < stop then with_density (cell a j) (rho_sum M_PI a start stop j)
      else cell a j :=
  (density_loop_spec M_PI a start stop stop hstop).2 j

theorem density_get (M_PI : K) (a : List (particle_t K)) (start stop i : Nat)
    (hstop : stop ≤ a.length) (h1 : start ≤ i) (h2 : i < stop) :
    (compute_density_pressure M_PI a start stop)[i]? =
      some (with_density (cell a i) (rho_sum M_PI a start stop i)) := by
  rw [get_of_cell _ i (by rw [density_length M_PI a start stop hstop]; omega),
    density_cell M_PI a start stop hstop i, if_pos ⟨h1, h2⟩]

/-- C7: for every range `[start, end)` inside the array and every particle `i`
of the range, `compute_density_pressure` sets
`rho_i = MASS * Σ (4 / (M_PI * H^8)) * (H^2 - d2_ij)^3`, the sum taken over the
`j` of the range (including `j = i`) with `d2_ij < H^2`, where `d2_ij` is the
squared distance between `i` and `j`, and sets
`p_i = GAS_CONST * (rho_i - REST_DENS)`; the position is not changed. -/
theorem density_pressure_formula (M_PI : K) (local_data : List (particle_t K))
    (start stop i : Nat) (hstop : stop ≤ local_data.length) (h1 : start ≤ i) (h2 : i < stop) :
    ∃ q, (compute_density_pressure M_PI local_data start stop)[i]? = some q ∧
      q.rho = MASS K *
        ∑ j ∈ (Finset.Ico start stop).filter
            (fun j => sqdist (cell local_data i) (cell local_data j) < H K ^ 2),
          4 / (M_PI * H K ^ 8) * (H K ^ 2 - sqdist (cell local_data i) (cell local_data j)) ^ 3 ∧
      q.p = GAS_CONST K * (q.rho - REST_DENS K) ∧
      q.x = (cell local_data i).x ∧ q.y = (cell local_data i).y := by
  refine ⟨_, density_get M_PI local_data start stop i hstop h1 h2, ?_, rfl, rfl, rfl⟩
  show rho_sum M_PI local_data start stop i = _
  unfold rho_sum density_term
  rw [Finset.mul_sum, Finset.sum_filter]
  apply Finset.sum_congr rfl
  intro j _
  have hsq : (HSQ : K) = H K ^ 2 := by
    unfold HSQ
    ring
  rw [hsq]
  by_cases hlt : sqdist (cell local_data i) (cell local_data j) < H K ^ 2
  · rw [if_pos hlt, if_pos hlt]
    unfold POLY6
    ring
  · rw [if_neg hlt, if_neg hlt]

/-- Witness for C7: three particles, two of them within the cutoff of each
other, with `M_PI = 3`. -/
theorem density_pressure_formula_witness :
    ∃ q : particle_t ℚ,
      (compute_density_pressure (3 : ℚ)
        [(⟨100, 100, 0, 0, 0, 0, 0, 0⟩ : particle_t ℚ), ⟨101, 100, 0, 0, 0, 0, 0, 0⟩,
          ⟨200, 100, 0, 0, 0, 0, 0, 0⟩] 0 3)[2]? = some q ∧
      q.p = GAS_CONST ℚ * (q.rho - REST_DENS ℚ) := by
  obtain ⟨q, hq, _, hp, _⟩ := density_pressure_formula (3 : ℚ)
    [⟨100, 100, 0, 0, 0, 0, 0, 0⟩, ⟨101, 100, 0, 0, 0, 0, 0, 0⟩,
      ⟨200, 100, 0, 0, 0, 0, 0, 0⟩] 0 3 2 (by decide) (by decide) (by decide)
  exact ⟨q, hq, hp⟩

/-! ## Positivity of the density -/

theorem H_pos : (0 : K) < H K := by
  unfold H
  norm_num

theorem HSQ_pos : (0 : K) < HSQ := by
  unfold HSQ
  exact mul_pos H_pos H_pos

theorem MASS_pos : (0 : K) < MASS K := by
  unfold MASS
  norm_num

theorem POLY6_pos (M_PI : K) (hpi : 0 < M_PI) : 0 < POLY6 M_PI := by
  unfold POLY6
  exact div_pos (by norm_num) (mul_pos hpi (pow_pos H_pos 8))

theorem density_term_nonneg (M_PI : K) (hpi : 0 < M_PI) (d2 : K) :
    0 ≤ density_term M_PI d2 := by
  unfold density_term
  by_cases h : d2 < HSQ
  · rw [if_pos h]
    have h3 : (0 : K) < (HSQ - d2) ^ 3 := pow_pos (sub_pos.2 h) 3
    exact le_of_lt (mul_pos (mul_pos MASS_pos (POLY6_pos M_PI hpi)) h3)
  · rw [if_neg h]

theorem sqdist_self (q : particle_t K) : sqdist q q = 0 := by
  unfold sqdist
  ring

theorem density_term_zero (M_PI : K) :
    density_term M_PI 0 = MASS K * POLY6 M_PI * H K ^ 6 := by
  unfold density_term
  rw [if_pos HSQ_pos]
  unfold HSQ
  ring

theorem self_term_le_rho_sum (M_PI : K) (hpi : 0 < M_PI) (a : List (particle_t K))
    (start stop i : Nat) (h1 : start ≤ i) (h2 : i < stop) :
    MASS K * POLY6 M_PI * H K ^ 6 ≤ rho_sum M_PI a start stop i := by
  have hmem : i ∈ Finset.Ico start stop := Finset.mem_Ico.2 ⟨h1, h2⟩
  have h := Finset.single_le_sum
    (f := fun k => density_term M_PI (sqdist (cell a i) (cell a k)))
    (fun k _ => density_term_nonneg M_PI hpi _) hmem
  simp only [sqdist_self, density_term_zero] at h
  exact h

theorem self_term_eq (M_PI : K) (hpi : 0 < M_PI) :
    MASS K * POLY6 M_PI * H K ^ 6 = 4 * MASS K / (M_PI * H K ^ 2) := by
  have hH : (H K) ≠ 0 := ne_of_gt H_pos
  have hp : M_PI ≠ 0 := ne_of_gt hpi
  unfold POLY6
  field_simp
  ring

theorem wr_of_length_le {α : Type} (a : List α) (i : Nat) (v : α) (h : a.length ≤ i) :
    wr a i v = a := by
  unfold wr
  exact List.set_eq_of_length_le h

/-- A loop whose body never changes a density leaves every density as it was. -/
theorem forRange_rho (body : Nat → List (particle_t K) → List (particle_t K))
    (hbody : ∀ i d j, (cell (body i d) j).rho = (cell d j).rho)
    (a : List (particle_t K)) (start m j : Nat) :
    (cell (forRange start m body a) j).rho = (cell a j).rho := by
  induction m with
  | zero => rw [forRange_empty _ _ _ _ (Nat.zero_le start)]
  | succ n ih =>
    by_cases hs : start ≤ n
    · rw [forRange_succ _ _ _ _ hs, hbody, ih]
    · rw [forRange_empty _ _ _ _ (by omega : n + 1 ≤ start)]

theorem wr_rho (d : List (particle_t K)) (i j : Nat) (v : particle_t K)
    (hv : v.rho = (cell d i).rho) : (cell (wr d i v) j).rho = (cell d j).rho := by
  by_cases hi : i < d.length
  · rw [cell_wr d i j v hi]
    by_cases e : i = j
    · subst e
      rw [if_pos rfl, hv]
    · rw [if_neg e]
  · rw [wr_of_length_le d i v (Nat.le_of_not_lt hi)]

theorem forces_outer_rho (M_PI : K) (hypotf : K → K → K) (start stop i : Nat)
    (d : List (particle_t K)) (j : Nat) :
    (cell (forces_outer M_PI hypotf start stop i d) j).rho = (cell d j).rho :=
  wr_rho d i j _ rfl

theorem forward_euler_rho (p : particle_t K) : (forward_euler p).rho = p.rho := rfl

theorem enforce_boundary_rho (p : particle_t K) : (enforce_boundary p).rho = p.rho := by
  unfold enforce_boundary
  dsimp only
  split_ifs <;> rfl

theorem integrate_body_rho (i : Nat) (d : List (particle_t K)) (j : Nat) :
    (cell (integrate_body i d) j).rho = (cell d j).rho :=
  wr_rho d i j _ (by rw [enforce_boundary_rho, forward_euler_rho])

/-- C8: after `compute_density_pressure` on a range `[start, end)` of the
array, whatever the positions, every particle of the range has
`rho ≥ MASS * POLY6 * H^6 = 4 * MASS / (M_PI * H^2) > 0`; the density is the
same and hence still positive in every state that the outer loop of
`compute_forces` goes through on that range, and in every state that the loop
of `integrate` goes through afterwards, so none of the divisions by
`pj->rho`, `pi->rho` and `p->rho` has a zero divisor. -/
theorem density_positive (M_PI : K) (hypotf : K → K → K) (local_data : List (particle_t K))
    (start stop i : Nat) (hpi : 0 < M_PI) (hstop : stop ≤ local_data.length)
    (h1 : start ≤ i) (h2 : i < stop) :
    MASS K * POLY6 M_PI * H K ^ 6 = 4 * MASS K / (M_PI * H K ^ 2) ∧
    0 < 4 * MASS K / (M_PI * H K ^ 2) ∧
    (∃ q, (compute_density_pressure M_PI local_data start stop)[i]? = some q ∧
      4 * MASS K / (M_PI * H K ^ 2) ≤ q.rho ∧ 0 < q.rho) ∧
    (∀ m, 0 < (cell (forRange start m (forces_outer M_PI hypotf start stop)
      (compute_density_pressure M_PI local_data start stop)) i).rho) ∧
    (∀ m, 0 < (cell (integrate (compute_forces M_PI hypotf
      (compute_density_pressure M_PI local_data start stop) start stop) start m) i).rho) := by
  have hself : (0 : K) < 4 * MASS K / (M_PI * H K ^ 2) :=
    div_pos (mul_pos (by norm_num) MASS_pos) (mul_pos hpi (pow_pos H_pos 2))
  have hle : 4 * MASS K / (M_PI * H K ^ 2) ≤ rho_sum M_PI local_data start stop i := by
    rw [← self_term_eq M_PI hpi]
    exact self_term_le_rho_sum M_PI hpi local_data start stop i h1 h2
  have hcell : (cell (compute_density_pressure M_PI local_data start stop) i).rho =
      rho_sum M_PI local_data start stop i := by
    rw [density_cell M_PI local_data start stop hstop i, if_pos ⟨h1, h2⟩]
    rfl
  refine ⟨self_term_eq M_PI hpi, hself,
    ⟨_, density_get M_PI local_data start stop i hstop h1 h2, hle, lt_of_lt_of_le hself hle⟩,
    fun m => ?_, fun m => ?_⟩
  · rw [forRange_rho _ (forces_outer_rho M_PI hypotf start stop) _ start m i, hcell]
    exact lt_of_lt_of_le hself hle
  · unfold integrate compute_forces
    rw [forRange_rho _ integrate_body_rho _ start m i,
      forRange_rho _ (forces_outer_rho M_PI hypotf start stop) _ start stop i, hcell]
    exact lt_of_lt_of_le hself hle

/-- Witness for C8: two particles at the same place and a third one far
away, with `M_PI = 3`. -/
theorem density_positive_witness :
    ∃ q : particle_t ℚ,
      (compute_density_pressure (3 : ℚ)
        [(⟨100, 100, 0, 0, 0, 0, 0, 0⟩ : particle_t ℚ), ⟨100, 100, 0, 0, 0, 0, 0, 0⟩,
          ⟨900, 100, 0, 0, 0, 0, 0, 0⟩] 0 3)[2]? = some q ∧
      4 * MASS ℚ / (3 * H ℚ ^ 2) ≤ q.rho ∧ 0 < q.rho :=
  (density_positive (3 : ℚ) (fun a b => |a| + |b|)
    [(⟨100, 100, 0, 0, 0, 0, 0, 0⟩ : particle_t ℚ), ⟨100, 100, 0, 0, 0, 0, 0, 0⟩,
      ⟨900, 100, 0, 0, 0, 0, 0, 0⟩] 0 3 2
    (by norm_num) (by decide) (by decide) (by decide)).2.2.1

/-! ## Relabelling -/

theorem sum_Ico_cell (f : particle_t K → K) (l : List (particle_t K)) :
    ∑ k ∈ Finset.Ico 0 l.length, f (cell l k) = (l.map f).sum := by
  induction l using List.reverseRecOn with
  | nil => simp
  | append_singleton l a ih =>
    rw [List.length_append, List.length_singleton, Finset.sum_Ico_succ_top (Nat.zero_le _),
      List.map_append, List.sum_append, ← ih]
    congr 1
    · apply Finset.sum_congr rfl
      intro k hk
      have hk2 : k < l.length := (Finset.mem_Ico.1 hk).2
      simp [cell, rd, List.getElem?_append_left hk2]
    · simp [cell, rd]

theorem rho_sum_whole (M_PI : K) (l : List (particle_t K)) (i : Nat) :
    rho_sum M_PI l 0 l.length i = rho_list M_PI l (cell l i) :=
  sum_Ico_cell (fun pj => density_term M_PI (sqdist (cell l i) pj)) l

theorem density_whole_eq_map (M_PI : K) (l : List (particle_t K)) :
    compute_density_pressure M_PI l 0 l.length =
      l.map (fun q => with_density q (rho_list M_PI l q)) := by
  apply List.ext_getElem?
  intro i
  by_cases hi : i < l.length
  · rw [density_get M_PI l 0 l.length i (Nat.le_refl _) (Nat.zero_le i) hi, List.getElem?_map,
      get_of_cell l i hi, rho_sum_whole]
    rfl
  · have h1 : l.length ≤ i := Nat.le_of_not_lt hi
    rw [List.getElem?_eq_none (by rw [density_length M_PI l 0 l.length (Nat.le_refl _)]; exact h1),
      List.getElem?_eq_none (by rw [List.length_map]; exact h1)]

theorem rho_list_perm (M_PI : K) {l₁ l₂ : List (particle_t K)} (h : l₁.Perm l₂)
    (q : particle_t K) : rho_list M_PI l₁ q = rho_list M_PI l₂ q :=
  List.Perm.sum_eq (List.Perm.map _ h)

/-- C9: density is invariant under relabelling.  For a list of particles and
any permutation of it, `compute_density_pressure` over the whole list gives a
particle, wherever it stands, the same `rho` and `p` (indeed the same
record); hence the resulting particles, and the list of their densities, are
the same up to the permutation. -/
theorem density_relabelling (M_PI : K) (l₁ l₂ : List (particle_t K)) (h : l₁.Perm l₂) :
    (∀ (i j : Nat) (p : particle_t K), l₁[i]? = some p → l₂[j]? = some p →
      ∃ q : particle_t K, (compute_density_pressure M_PI l₁ 0 l₁.length)[i]? = some q ∧
        (compute_density_pressure M_PI l₂ 0 l₂.length)[j]? = some q ∧
        q.rho = rho_list M_PI l₁ p ∧ q.p = GAS_CONST K * (q.rho - REST_DENS K)) ∧
    (compute_density_pressure M_PI l₁ 0 l₁.length).Perm
      (compute_density_pressure M_PI l₂ 0 l₂.length) ∧
    ((compute_density_pressure M_PI l₁ 0 l₁.length).map (fun q => q.rho)).Perm
      ((compute_density_pressure M_PI l₂ 0 l₂.length).map (fun q => q.rho)) := by
  have hfun : (fun q => with_density q (rho_list M_PI l₁ q)) =
      (fun q => with_density q (rho_list M_PI l₂ q)) := by
    funext q
    rw [rho_list_perm M_PI h q]
  have hperm : (compute_density_pressure M_PI l₁ 0 l₁.length).Perm
      (compute_density_pressure M_PI l₂ 0 l₂.length) := by
    rw [density_whole_eq_map, density_whole_eq_map, hfun]
    exact List.Perm.map _ h
  refine ⟨?_, hperm, List.Perm.map _ hperm⟩
  intro i j p hi hj
  refine ⟨with_density p (rho_list M_PI l₁ p), ?_, ?_, rfl, rfl⟩
  · rw [density_whole_eq_map, List.getElem?_map, hi]
    rfl
  · rw [density_whole_eq_map, List.getElem?_map, hj, rho_list_perm M_PI h p]
    rfl

/-- Witness for C9: two particles within the cutoff of each other, in the two
possible orders, with `M_PI = 3`. -/
theorem density_relabelling_witness :
    ((compute_density_pressure (3 : ℚ)
        [(⟨101, 100, 0, 0, 0, 0, 0, 0⟩ : particle_t ℚ), ⟨100, 100, 0, 0, 0, 0, 0, 0⟩]
        0 2).map (fun q => q.rho)).Perm
      ((compute_density_pressure (3 : ℚ)
        [(⟨100, 100, 0, 0, 0, 0, 0, 0⟩ : particle_t ℚ), ⟨101, 100, 0, 0, 0, 0, 0, 0⟩]
        0 2).map (fun q => q.rho)) :=
  (density_relabelling (3 : ℚ)
    [(⟨101, 100, 0, 0, 0, 0, 0, 0⟩ : particle_t ℚ), ⟨100, 100, 0, 0, 0, 0, 0, 0⟩]
    [(⟨100, 100, 0, 0, 0, 0, 0, 0⟩ : particle_t ℚ), ⟨101, 100, 0, 0, 0, 0, 0, 0⟩]
    (List.Perm.swap _ _ [])).2.2

/-! ## The integrator -/

end KernelFacts

/-! ## Receive size and send count -/

/-- C18: for every `N`, `P ≥ 1` and rank `r < P`, the receive size `n_local`
that rank `r` computes for itself (lines 461-464) is the send count
`local_count[r]` that the partitioner loop computes for that rank. -/
theorem n_local_eq_local_count (N P r : Nat) (hP : 1 ≤ P) (hr : r < P) :
    (local_count N P)[r]? = some (n_local N P r) ∧
    n_local N P r = N / P + (if r = P - 1 then N % P else 0) := by
  have _h := hP
  refine ⟨?_, ?_⟩
  · rw [local_count_get N P r hr]
    rfl
  · unfold n_local
    by_cases h : r = P - 1
    · simp only [if_pos h]
    · simp only [if_neg h, Nat.add_zero]

/-- Witness for C18: ten particles on four workers, last rank. -/
theorem n_local_eq_local_count_witness :
    (local_count 10 4)[3]? = some (n_local 10 4 3) :=
  (n_local_eq_local_count 10 4 3 (by decide) (by decide)).1

section DriverFacts
variable {K : Type} [LinearOrderedField K]

/-! ## Boundary reflection -/

theorem two_EPS_le_width : ¬ (EPS K + EPS K > VIEW_WIDTH K) := by
  unfold EPS VIEW_WIDTH WINDOW_WIDTH
  norm_num

theorem two_EPS_le_height : ¬ (EPS K + EPS K > VIEW_HEIGHT K) := by
  unfold EPS VIEW_HEIGHT WINDOW_HEIGHT
  norm_num

theorem enforce_boundary_x_cases (p : particle_t K) :
    (p.x < EPS K →
      (enforce_boundary p).x = EPS K ∧ (enforce_boundary p).vx = -(1 / 2) * p.vx) ∧
    (VIEW_WIDTH K - EPS K < p.x →
      (enforce_boundary p).x = VIEW_WIDTH K - EPS K ∧
        (enforce_boundary p).vx = -(1 / 2) * p.vx) ∧
    (EPS K ≤ p.x → p.x ≤ VIEW_WIDTH K - EPS K →
      (enforce_boundary p).x = p.x ∧ (enforce_boundary p).vx = p.vx) := by
  have hw := two_EPS_le_width (K := K)
  have hx : (enforce_boundary p).x =
      (if (if p.x - EPS K < 0 then EPS K else p.x) + EPS K > VIEW_WIDTH K
        then VIEW_WIDTH K - EPS K else (if p.x - EPS K < 0 then EPS K else p.x)) := by
    unfold enforce_boundary
    dsimp only
    split_ifs <;> rfl
  have hv : (enforce_boundary p).vx =
      (if (if p.x - EPS K < 0 then EPS K else p.x) + EPS K > VIEW_WIDTH K
        then (if p.x - EPS K < 0 then p.vx * BOUND_DAMPING K else p.vx) * BOUND_DAMPING K
        else (if p.x - EPS K < 0 then p.vx * BOUND_DAMPING K else p.vx)) := by
    unfold enforce_boundary
    dsimp only
    split_ifs <;> rfl
  rw [hx, hv]
  refine ⟨fun h => ?_, fun h => ?_, fun h1 h2 => ?_⟩
  · have a1 : p.x - EPS K < 0 := by linarith
    simp only [if_pos a1, if_neg hw]
    refine ⟨trivial, ?_⟩
    unfold BOUND_DAMPING
    ring
  · have a1 : ¬ (p.x - EPS K < 0) := by
      have := not_lt.1 hw
      intro h3
      linarith
    have a2 : p.x + EPS K > VIEW_WIDTH K := by
      show VIEW_WIDTH K < p.x + EPS K
      linarith
    simp only [if_neg a1, if_pos a2]
    refine ⟨trivial, ?_⟩
    unfold BOUND_DAMPING
    ring
  · have a1 : ¬ (p.x - EPS K < 0) := by
      intro h3
      linarith
    have a2 : ¬ (p.x + EPS K > VIEW_WIDTH K) := by
      intro h3
      have : VIEW_WIDTH K < p.x + EPS K := h3
      linarith
    simp only [if_neg a1, if_neg a2]
    exact ⟨trivial, trivial⟩

theorem enforce_boundary_y_cases (p : particle_t K) :
    (p.y < EPS K →
      (enforce_boundary p).y = EPS K ∧ (enforce_boundary p).vy = -(1 / 2) * p.vy) ∧
    (VIEW_HEIGHT K - EPS K < p.y →
      (enforce_boundary p).y = VIEW_HEIGHT K - EPS K ∧
        (enforce_boundary p).vy = -(1 / 2) * p.vy) ∧
    (EPS K ≤ p.y → p.y ≤ VIEW_HEIGHT K - EPS K →
      (enforce_boundary p).y = p.y ∧ (enforce_boundary p).vy = p.vy) := by
  have hw := two_EPS_le_height (K := K)
  have hx : (enforce_boundary p).y =
      (if (if p.y - EPS K < 0 then EPS K else p.y) + EPS K > VIEW_HEIGHT K
        then VIEW_HEIGHT K - EPS K else (if p.y - EPS K < 0 then EPS K else p.y)) := by
    unfold enforce_boundary
    dsimp only
    split_ifs <;> rfl
  have hv : (enforce_boundary p).vy =
      (if (if p.y - EPS K < 0 then EPS K else p.y) + EPS K > VIEW_HEIGHT K
        then (if p.y - EPS K < 0 then p.vy * BOUND_DAMPING K else p.vy) * BOUND_DAMPING K
        else (if p.y - EPS K < 0 then p.vy * BOUND_DAMPING K else p.vy)) := by
    unfold enforce_boundary
    dsimp only
    split_ifs <;> rfl
  rw [hx, hv]
  refine ⟨fun h => ?_, fun h => ?_, fun h1 h2 => ?_⟩
  · have a1 : p.y - EPS K < 0 := by linarith
    simp only [if_pos a1, if_neg hw]
    refine ⟨trivial, ?_⟩
    unfold BOUND_DAMPING
    ring
  · have a1 : ¬ (p.y - EPS K < 0) := by
      have := not_lt.1 hw
      intro h3
      linarith
    have a2 : p.y + EPS K > VIEW_HEIGHT K := by
      show VIEW_HEIGHT K < p.y + EPS K
      linarith
    simp only [if_neg a1, if_pos a2]
    refine ⟨trivial, ?_⟩
    unfold BOUND_DAMPING
    ring
  · have a1 : ¬ (p.y - EPS K < 0) := by
      intro h3
      linarith
    have a2 : ¬ (p.y + EPS K > VIEW_HEIGHT K) := by
      intro h3
      have : VIEW_HEIGHT K < p.y + EPS K := h3
      linarith
    simp only [if_neg a1, if_neg a2]
    exact ⟨trivial, trivial⟩

/-- C16: boundary reflection acts per axis.  Let `p1` be particle `i` of the
range after the Euler update, `(x1, vx1) = (p1.x, p1.vx)`.  After `integrate`:
if `x1 < EPS` then `x = EPS` and `vx = -0.5 * vx1`; if `x1 > VIEW_WIDTH - EPS`
then `x = VIEW_WIDTH - EPS` and `vx = -0.5 * vx1`; otherwise `x = x1` and
`vx = vx1`.  The same holds for `y` with `VIEW_HEIGHT`, whatever happened on
the `x` axis, so when an `x` edge and a `y` edge are crossed in the same step
both coordinates are clamped and both velocity components are damped. -/
theorem boundary_reflection (local_data : List (particle_t K)) (start stop i : Nat)
    (p : particle_t K) (hstop : stop ≤ local_data.length) (h1 : start ≤ i) (h2 : i < stop)
    (hp : local_data[i]? = some p) :
    ∃ q : particle_t K, (integrate local_data start stop)[i]? = some q ∧
      ((forward_euler p).x < EPS K → q.x = EPS K ∧ q.vx = -(1 / 2) * (forward_euler p).vx) ∧
      (VIEW_WIDTH K - EPS K < (forward_euler p).x →
        q.x = VIEW_WIDTH K - EPS K ∧ q.vx = -(1 / 2) * (forward_euler p).vx) ∧
      (EPS K ≤ (forward_euler p).x → (forward_euler p).x ≤ VIEW_WIDTH K - EPS K →
        q.x = (forward_euler p).x ∧ q.vx = (forward_euler p).vx) ∧
      ((forward_euler p).y < EPS K → q.y = EPS K ∧ q.vy = -(1 / 2) * (forward_euler p).vy) ∧
      (VIEW_HEIGHT K - EPS K < (forward_euler p).y →
        q.y = VIEW_HEIGHT K - EPS K ∧ q.vy = -(1 / 2) * (forward_euler p).vy) ∧
      (EPS K ≤ (forward_euler p).y → (forward_euler p).y ≤ VIEW_HEIGHT K - EPS K →
        q.y = (forward_euler p).y ∧ q.vy = (forward_euler p).vy) ∧
      (((forward_euler p).x < EPS K ∨ VIEW_WIDTH K - EPS K < (forward_euler p).x) →
        ((forward_euler p).y < EPS K ∨ VIEW_HEIGHT K - EPS K < (forward_euler p).y) →
        (q.x = EPS K ∨ q.x = VIEW_WIDTH K - EPS K) ∧
        (q.y = EPS K ∨ q.y = VIEW_HEIGHT K - EPS K) ∧
        q.vx = -(1 / 2) * (forward_euler p).vx ∧ q.vy = -(1 / 2) * (forward_euler p).vy) := by
  have hget : (integrate local_data start stop)[i]? =
      some (enforce_boundary (forward_euler p)) := by
    rw [integrate_get local_data start stop i hstop h1 h2, cell_of_get hp]
  obtain ⟨x1, x2, x3⟩ := enforce_boundary_x_cases (forward_euler p)
  obtain ⟨y1, y2, y3⟩ := enforce_boundary_y_cases (forward_euler p)
  refine ⟨_, hget, x1, x2, x3, y1, y2, y3, ?_⟩
  intro hx hy
  refine ⟨?_, ?_, ?_, ?_⟩
  · rcases hx with h | h
    · exact Or.inl (x1 h).1
    · exact Or.inr (x2 h).1
  · rcases hy with h | h
    · exact Or.inl (y1 h).1
    · exact Or.inr (y2 h).1
  · rcases hx with h | h
    · exact (x1 h).2
    · exact (x2 h).2
  · rcases hy with h | h
    · exact (y1 h).2
    · exact (y2 h).2

/-- Witness for C16: a particle that crosses the left edge and the top edge
in the same step. -/
theorem boundary_reflection_witness :
    ∃ q : particle_t ℚ,
      (integrate [(⟨-5, 4000, -1, 1, 0, 0, 1, 0⟩ : particle_t ℚ)] 0 1)[0]? = some q ∧
      (q.x = EPS ℚ ∨ q.x = VIEW_WIDTH ℚ - EPS ℚ) ∧
      (q.y = EPS ℚ ∨ q.y = VIEW_HEIGHT ℚ - EPS ℚ) ∧
      q.vx = -(1 / 2) * (forward_euler (⟨-5, 4000, -1, 1, 0, 0, 1, 0⟩ : particle_t ℚ)).vx ∧
      q.vy = -(1 / 2) * (forward_euler (⟨-5, 4000, -1, 1, 0, 0, 1, 0⟩ : particle_t ℚ)).vy := by
  obtain ⟨q, hq, _, _, _, _, _, _, hc⟩ :=
    boundary_reflection [(⟨-5, 4000, -1, 1, 0, 0, 1, 0⟩ : particle_t ℚ)] 0 1 0
      ⟨-5, 4000, -1, 1, 0, 0, 1, 0⟩ (by decide) (by decide) (by decide) rfl
  exact ⟨q, hq, hc (Or.inl (by norm_num [forward_euler, EPS, DT]))
    (Or.inr (by norm_num [forward_euler, EPS, DT, VIEW_HEIGHT, WINDOW_HEIGHT]))⟩

/-! ## Average speed of a shard -/

theorem forRange_add_sum (f : Nat → K) (start stop : Nat) (z : K) :
    forRange start stop (fun i result => result + f i) z =
      z + ∑ i ∈ Finset.Ico start stop, f i := by
  induction stop with
  | zero =>
    rw [forRange_empty _ _ _ _ (Nat.zero_le start)]
    simp
  | succ n ih =>
    by_cases hs : start ≤ n
    · rw [forRange_succ _ _ _ _ hs, ih, Finset.sum_Ico_succ_top hs, add_assoc]
    · rw [forRange_empty _ _ _ _ (by omega : n + 1 ≤ start),
        Finset.Ico_eq_empty (by omega), Finset.sum_empty, add_zero]

theorem avg_velocities_whole (hypot : K → K → K) (shard : List (particle_t K)) :
    avg_velocities hypot shard 0 shard.length =
      (shard.map (speed hypot)).sum / (shard.length : K) := by
  unfold avg_velocities
  rw [forRange_add_sum (fun i => hypot (cell shard i).vx (cell shard i).vy / (shard.length : K)),
    zero_add, ← Finset.sum_div]
  congr 1
  exact sum_Ico_cell (speed hypot) shard

/-- C14: for every shard of `n ≥ 1` particles, `avg_velocities(shard, 0, n)`
is the arithmetic mean of the speeds `hypot(vx, vy)` of its `n` particles; for
an empty shard it returns `0`. -/
theorem avg_velocities_mean (hypot : K → K → K) (shard : List (particle_t K))
    (hn : 1 ≤ shard.length) :
    avg_velocities hypot shard 0 shard.length =
      (shard.map (fun q => hypot q.vx q.vy)).sum / (shard.length : K) ∧
    (shard.length : K) ≠ 0 ∧
    avg_velocities hypot ([] : List (particle_t K)) 0 0 = 0 := by
  refine ⟨avg_velocities_whole hypot shard, ?_, rfl⟩
  have : 0 < shard.length := hn
  exact Nat.cast_ne_zero.2 (Nat.pos_iff_ne_zero.1 this)

/-- Witness for C14: two particles with the velocities `(3, 4)` and `(1, 0)`. -/
theorem avg_velocities_mean_witness :
    avg_velocities (fun a b : ℚ => |a| + |b|)
        [(⟨0, 0, 3, 4, 0, 0, 0, 0⟩ : particle_t ℚ), ⟨0, 0, 1, 0, 0, 0, 0, 0⟩] 0
        [(⟨0, 0, 3, 4, 0, 0, 0, 0⟩ : particle_t ℚ), ⟨0, 0, 1, 0, 0, 0, 0, 0⟩].length =
      ([(⟨0, 0, 3, 4, 0, 0, 0, 0⟩ : particle_t ℚ), ⟨0, 0, 1, 0, 0, 0, 0, 0⟩].map
        (fun q => |q.vx| + |q.vy|)).sum /
        ([(⟨0, 0, 3, 4, 0, 0, 0, 0⟩ : particle_t ℚ), ⟨0, 0, 1, 0, 0, 0, 0, 0⟩].length : ℚ) :=
  (avg_velocities_mean (fun a b : ℚ => |a| + |b|)
    [(⟨0, 0, 3, 4, 0, 0, 0, 0⟩ : particle_t ℚ), ⟨0, 0, 1, 0, 0, 0, 0, 0⟩] (by decide)).1

/-! ## Coincident particles -/

theorem EPS_dist_pos : (0 : K) < EPS_dist := by
  unfold EPS_dist
  norm_num

theorem EPS_dist_lt_H : (EPS_dist : K) < H K := by
  unfold EPS_dist H
  norm_num

theorem forces_inner_ne (M_PI : K) (hypotf : K → K → K) (a : List (particle_t K))
    (i j : Nat) (acc : force_acc K) (hij : i ≠ j)
    (hd : dist_eps hypotf (cell a i) (cell a j) < H K) :
    forces_inner M_PI hypotf a i j acc =
      { fpress_x := acc.fpress_x +
          -(((cell a j).x - (cell a i).x) / dist_eps hypotf (cell a i) (cell a j)) * MASS K *
            ((cell a i).p + (cell a j).p) / (2 * (cell a j).rho) * SPIKY_GRAD M_PI *
            (H K - dist_eps hypotf (cell a i) (cell a j)) ^ 3
        fpress_y := acc.fpress_y +
          -(((cell a j).y - (cell a i).y) / dist_eps hypotf (cell a i) (cell a j)) * MASS K *
            ((cell a i).p + (cell a j).p) / (2 * (cell a j).rho) * SPIKY_GRAD M_PI *
            (H K - dist_eps hypotf (cell a i) (cell a j)) ^ 3
        fvisc_x := acc.fvisc_x +
          VISC K * MASS K * ((cell a j).vx - (cell a i).vx) / (cell a j).rho * VISC_LAP M_PI *
            (H K - dist_eps hypotf (cell a i) (cell a j))
        fvisc_y := acc.fvisc_y +
          VISC K * MASS K * ((cell a j).vy - (cell a i).vy) / (cell a j).rho * VISC_LAP M_PI *
            (H K - dist_eps hypotf (cell a i) (cell a j)) } := by
  unfold forces_inner
  simp only [if_neg hij]
  unfold dist_eps at hd
  rw [if_pos hd]
  rfl

/-- C11: two particles at the same position do not make the force pass divide
by zero.  With `hypotf ≥ 0` the divisor `dist = hypotf(dx, dy) + 1e-6` is at
least `1e-6 > 0` for every pair.  For a pair `i ≠ j` at the same position
(`hypotf(0, 0) = 0`) with positive densities, `dist = 1e-6`, the normalised
direction is `(0, 0)`, the pressure accumulators are unchanged (contribution
`0`), the viscosity accumulators grow by
`VISC * MASS * (v_j - v_i) / rho_j * VISC_LAP * (H - 1e-6)`, and no divisor of
the iteration is zero. -/
theorem forces_coincident (M_PI : K) (hypotf : K → K → K) (local_data : List (particle_t K))
    (i j : Nat) (acc : force_acc K) (hpi : 0 < M_PI)
    (hnn : ∀ u v, 0 ≤ hypotf u v) (h0 : hypotf 0 0 = 0) :
    (∀ pi pj : particle_t K,
      (1 : K) / 1000000 ≤ dist_eps hypotf pi pj ∧ 0 < dist_eps hypotf pi pj) ∧
    (i ≠ j → (cell local_data j).x = (cell local_data i).x →
      (cell local_data j).y = (cell local_data i).y →
      0 < (cell local_data i).rho → 0 < (cell local_data j).rho →
      dist_eps hypotf (cell local_data i) (cell local_data j) = 1 / 1000000 ∧
      ((cell local_data j).x - (cell local_data i).x) /
        dist_eps hypotf (cell local_data i) (cell local_data j) = 0 ∧
      ((cell local_data j).y - (cell local_data i).y) /
        dist_eps hypotf (cell local_data i) (cell local_data j) = 0 ∧
      (forces_inner M_PI hypotf local_data i j acc).fpress_x = acc.fpress_x + 0 ∧
      (forces_inner M_PI hypotf local_data i j acc).fpress_y = acc.fpress_y + 0 ∧
      (forces_inner M_PI hypotf local_data i j acc).fvisc_x = acc.fvisc_x +
        VISC K * MASS K * ((cell local_data j).vx - (cell local_data i).vx) /
          (cell local_data j).rho * VISC_LAP M_PI * (H K - 1 / 1000000) ∧
      (forces_inner M_PI hypotf local_data i j acc).fvisc_y = acc.fvisc_y +
        VISC K * MASS K * ((cell local_data j).vy - (cell local_data i).vy) /
          (cell local_data j).rho * VISC_LAP M_PI * (H K - 1 / 1000000) ∧
      dist_eps hypotf (cell local_data i) (cell local_data j) ≠ 0 ∧
      2 * (cell local_data j).rho ≠ 0 ∧ (cell local_data j).rho ≠ 0 ∧
      (cell local_data i).rho ≠ 0 ∧ M_PI * H K ^ 5 ≠ 0) := by
  constructor
  · intro pi pj
    have h := hnn (pj.x - pi.x) (pj.y - pi.y)
    have he : (EPS_dist : K) = 1 / 1000000 := rfl
    have hp := EPS_dist_pos (K := K)
    unfold dist_eps
    constructor
    · rw [← he]
      linarith
    · linarith
  · intro hij hx hy hri hrj
    have hd : dist_eps hypotf (cell local_data i) (cell local_data j) = 1 / 1000000 := by
      unfold dist_eps
      rw [hx, hy, sub_self, sub_self, h0, zero_add]
      rfl
    have hlt : dist_eps hypotf (cell local_data i) (cell local_data j) < H K := by
      rw [hd]
      exact EPS_dist_lt_H
    have hdx : (cell local_data j).x - (cell local_data i).x = 0 := by rw [hx, sub_self]
    have hdy : (cell local_data j).y - (cell local_data i).y = 0 := by rw [hy, sub_self]
    rw [forces_inner_ne M_PI hypotf local_data i j acc hij hlt]
    simp only [hdx, hdy, hd, zero_div, neg_zero, zero_mul]
    refine ⟨trivial, trivial, trivial, trivial, trivial, trivial, trivial, ?_, ?_, ?_, ?_, ?_⟩
    · norm_num
    · exact ne_of_gt (mul_pos (by norm_num) hrj)
    · exact ne_of_gt hrj
    · exact ne_of_gt hri
    · exact ne_of_gt (mul_pos hpi (pow_pos H_pos 5))

/-- Witness for C11: two particles at `(100, 100)` with density `1` and
different velocities, `M_PI = 3`. -/
theorem forces_coincident_witness :
    (forces_inner (3 : ℚ) (fun a b => |a| + |b|)
        [(⟨100, 100, 1, 0, 0, 0, 1, 0⟩ : particle_t ℚ), ⟨100, 100, 0, 2, 0, 0, 1, 0⟩]
        0 1 ⟨0, 0, 0, 0⟩).fpress_x = 0 + 0 :=
  ((forces_coincident (3 : ℚ) (fun a b => |a| + |b|)
    [(⟨100, 100, 1, 0, 0, 0, 1, 0⟩ : particle_t ℚ), ⟨100, 100, 0, 2, 0, 0, 1, 0⟩]
    0 1 ⟨0, 0, 0, 0⟩ (by norm_num)
    (fun u v => add_nonneg (abs_nonneg u) (abs_nonneg v)) (by simp)).2
    (by decide) rfl rfl (by simp [cell, rd]) (by simp [cell, rd])).2.2.2.1

/-! ## The force pass -/

theorem forRange_congr {σ : Type} (start stop : Nat) (body body' : Nat → σ → σ) (s : σ)
    (h : ∀ k, start ≤ k → k < stop → ∀ t, body k t = body' k t) :
    forRange start stop body s = forRange start stop body' s := by
  induction stop with
  | zero => rw [forRange_empty _ _ _ _ (Nat.zero_le start), forRange_empty _ _ _ _ (Nat.zero_le start)]
  | succ n ih =>
    by_cases hs : start ≤ n
    · rw [forRange_succ _ _ _ _ hs, forRange_succ _ _ _ _ hs,
        ih (fun k h1 h2 => h k h1 (Nat.lt_succ_of_lt h2)), h n hs (Nat.lt_succ_self n)]
    · rw [forRange_empty _ _ _ _ (by omega : n + 1 ≤ start),
        forRange_empty _ _ _ _ (by omega : n + 1 ≤ start)]

theorem same_but_force_with_force (q : particle_t K) (acc : force_acc K) :
    same_but_force (with_force q acc) q :=
  ⟨rfl, rfl, rfl, rfl, rfl, rfl⟩

theorem forces_inner_eq (M_PI : K) (hypotf : K → K → K) (a : List (particle_t K))
    (i j : Nat) (acc : force_acc K) :
    forces_inner M_PI hypotf a i j acc =
      { fpress_x := acc.fpress_x + (contribution M_PI hypotf a i j).fpress_x
        fpress_y := acc.fpress_y + (contribution M_PI hypotf a i j).fpress_y
        fvisc_x := acc.fvisc_x + (contribution M_PI hypotf a i j).fvisc_x
        fvisc_y := acc.fvisc_y + (contribution M_PI hypotf a i j).fvisc_y } := by
  unfold contribution
  by_cases hij : i = j
  · unfold forces_inner
    simp only [if_pos hij, add_zero]
  · by_cases hd : dist_eps hypotf (cell a i) (cell a j) < H K
    · rw [forces_inner_ne M_PI hypotf a i j acc hij hd]
      simp only [if_neg hij, pair_force, if_pos hd]
    · unfold forces_inner
      simp only [if_neg hij]
      have hd2 := hd
      unfold dist_eps at hd2
      rw [if_neg hd2]
      simp only [pair_force, if_neg hd, add_zero]

theorem contribution_congr (M_PI : K) (hypotf : K → K → K) (a b : List (particle_t K))
    (i j : Nat) (hi : same_but_force (cell a i) (cell b i))
    (hj : same_but_force (cell a j) (cell b j)) :
    contribution M_PI hypotf a i j = contribution M_PI hypotf b i j := by
  obtain ⟨i1, i2, i3, i4, i5, i6⟩ := hi
  obtain ⟨j1, j2, j3, j4, j5, j6⟩ := hj
  unfold contribution pair_force dist_eps
  rw [i1, i2, i3, i4, i6, j1, j2, j3, j4, j5, j6]

theorem force_acc_of_congr (M_PI : K) (hypotf : K → K → K) (a b : List (particle_t K))
    (start stop i : Nat) (hi : same_but_force (cell a i) (cell b i))
    (h : ∀ k, start ≤ k → k < stop → same_but_force (cell a k) (cell b k)) :
    force_acc_of M_PI hypotf a start stop i = force_acc_of M_PI hypotf b start stop i := by
  unfold force_acc_of
  apply forRange_congr
  intro k h1 h2 t
  rw [forces_inner_eq, forces_inner_eq, contribution_congr M_PI hypotf a b i k hi (h k h1 h2)]

theorem forces_outer_spec (M_PI : K) (hypotf : K → K → K) (a : List (particle_t K))
    (start stop i : Nat) (hi : i < a.length) :
    (forces_outer M_PI hypotf start stop i a).length = a.length ∧
    ∀ j, cell (forces_outer M_PI hypotf start stop i a) j =
      if i = j then with_force (cell a i) (force_acc_of M_PI hypotf a start stop i)
      else cell a j := by
  have hbody : forces_outer M_PI hypotf start stop i a =
      wr a i (with_force (cell a i) (force_acc_of M_PI hypotf a start stop i)) := rfl
  rw [hbody]
  exact ⟨length_wr _ _ _, fun j => cell_wr a i j _ hi⟩

theorem forces_loop_spec (M_PI : K) (hypotf : K → K → K) (a : List (particle_t K))
    (start stop : Nat) (m : Nat) (hm : m ≤ a.length) :
    (forRange start m (forces_outer M_PI hypotf start stop) a).length = a.length ∧
    ∀ j, cell (forRange start m (forces_outer M_PI hypotf start stop) a) j =
      if start ≤ j ∧ j < m then
        with_force (cell a j) (force_acc_of M_PI hypotf a start stop j)
      else cell a j := by
  induction m with
  | zero =>
    rw [forRange_empty _ _ _ _ (Nat.zero_le start)]
    refine ⟨rfl, fun j => ?_⟩
    rw [if_neg (fun h => Nat.not_lt_zero j h.2)]
  | succ n ih =>
    by_cases hs : start ≤ n
    · obtain ⟨hl, hc⟩ := ih (Nat.le_of_succ_le hm)
      rw [forRange_succ _ _ _ _ hs]
      generalize forRange start n (forces_outer M_PI hypotf start stop) a = d at hl hc
      obtain ⟨hl2, hc2⟩ := forces_outer_spec M_PI hypotf d start stop n (by omega)
      have hsame : ∀ k, same_but_force (cell d k) (cell a k) := by
        intro k
        rw [hc k]
        by_cases hk : start ≤ k ∧ k < n
        · rw [if_pos hk]
          exact same_but_force_with_force _ _
        · rw [if_neg hk]
          exact ⟨rfl, rfl, rfl, rfl, rfl, rfl⟩
      refine ⟨by rw [hl2, hl], fun j => ?_⟩
      rw [hc2 j, force_acc_of_congr M_PI hypotf d a start stop n (hsame n)
        (fun k _ _ => hsame k)]
      by_cases e : n = j
      · subst e
        rw [if_pos rfl, if_pos ⟨hs, Nat.lt_succ_self n⟩, hc n,
          if_neg (fun h => Nat.lt_irrefl n h.2)]
      · rw [if_neg e, hc j]
        by_cases hj : start ≤ j ∧ j < n
        · rw [if_pos hj, if_pos ⟨hj.1, Nat.lt_succ_of_lt hj.2⟩]
        · rw [if_neg hj, if_neg (fun h => hj ⟨h.1, by omega⟩)]
    · rw [forRange_empty _ _ _ _ (by omega : n + 1 ≤ start)]
      refine ⟨rfl, fun j => ?_⟩
      rw [if_neg (fun h => by omega)]

theorem forces_length (M_PI : K) (hypotf : K → K → K) (a : List (particle_t K))
    (start stop : Nat) (hstop : stop ≤ a.length) :
    (compute_forces M_PI hypotf a start stop).length = a.length :=
  (forces_loop_spec M_PI hypotf a start stop stop hstop).1

theorem forces_cell (M_PI : K) (hypotf : K → K → K) (a : List (particle_t K))
    (start stop : Nat) (hstop : stop ≤ a.length) (j : Nat) :
    cell (compute_forces M_PI hypotf a start stop) j =
      if start ≤ j ∧ j < stop then
        with_force (cell a j) (force_acc_of M_PI hypotf a start stop j)
      else cell a j :=
  (forces_loop_spec M_PI hypotf a start stop stop hstop).2 j

theorem forces_get (M_PI : K) (hypotf : K → K → K) (a : List (particle_t K))
    (start stop i : Nat) (hstop : stop ≤ a.length) (h1 : start ≤ i) (h2 : i < stop) :
    (compute_forces M_PI hypotf a start stop)[i]? =
      some (with_force (cell a i) (force_acc_of M_PI hypotf a start stop i)) := by
  rw [get_of_cell _ i (by rw [forces_length M_PI hypotf a start stop hstop]; omega),
    forces_cell M_PI hypotf a start stop hstop i, if_pos ⟨h1, h2⟩]

theorem forces_inner_sum (M_PI : K) (hypotf : K → K → K) (a : List (particle_t K))
    (start i : Nat) (acc : force_acc K) (m : Nat) :
    forRange start m (forces_inner M_PI hypotf a i) acc =
      { fpress_x := acc.fpress_x +
          ∑ k ∈ Finset.Ico start m, (contribution M_PI hypotf a i k).fpress_x
        fpress_y := acc.fpress_y +
          ∑ k ∈ Finset.Ico start m, (contribution M_PI hypotf a i k).fpress_y
        fvisc_x := acc.fvisc_x +
          ∑ k ∈ Finset.Ico start m, (contribution M_PI hypotf a i k).fvisc_x
        fvisc_y := acc.fvisc_y +
          ∑ k ∈ Finset.Ico start m, (contribution M_PI hypotf a i k).fvisc_y } := by
  induction m with
  | zero =>
    rw [forRange_empty _ _ _ _ (Nat.zero_le start)]
    simp
  | succ n ih =>
    by_cases hs : start ≤ n
    · rw [forRange_succ _ _ _ _ hs, ih, forces_inner_eq]
      simp only [Finset.sum_Ico_succ_top hs, add_assoc]
    · rw [forRange_empty _ _ _ _ (by omega : n + 1 ≤ start)]
      simp [Finset.Ico_eq_empty (by omega : ¬ start < n + 1)]

theorem contribution_of_far (M_PI : K) (hypotf : K → K → K) (a : List (particle_t K))
    (i j : Nat) (h : i ≠ j → ¬ dist_eps hypotf (cell a i) (cell a j) < H K) :
    contribution M_PI hypotf a i j = ⟨0, 0, 0, 0⟩ := by
  unfold contribution
  by_cases hij : i = j
  · rw [if_pos hij]
  · rw [if_neg hij]
    unfold pair_force
    rw [if_neg (h hij)]

/-- C15: for every range `[start, end)` of the array with non-zero densities
and every particle `i` of it, `compute_forces` stores
`f_i = Σ [ -(r_ij / dist_ij) * MASS * (p_i + p_j) / (2 * rho_j) * (-10 / (M_PI * H^5)) * (H - dist_ij)^3
 + VISC * MASS * (v_j - v_i) / rho_j * (40 / (M_PI * H^5)) * (H - dist_ij) ] + G * MASS / rho_i`,
the sum taken over the `j ≠ i` of the range with `dist_ij < H`, where
`r_ij = pos_j - pos_i` and `dist_ij = hypotf(r_ij) + 1e-6`.  Gravity is added
once, so a particle without neighbour within the cutoff gets exactly
`(Gx * MASS / rho_i, Gy * MASS / rho_i)`. -/
theorem forces_formula (M_PI : K) (hypotf : K → K → K) (local_data : List (particle_t K))
    (start stop i : Nat) (hstop : stop ≤ local_data.length) (h1 : start ≤ i) (h2 : i < stop)
    (_hrho : ∀ j, start ≤ j → j < stop → (cell local_data j).rho ≠ 0) :
    ∃ q : particle_t K, (compute_forces M_PI hypotf local_data start stop)[i]? = some q ∧
      q.fx = (∑ j ∈ (Finset.Ico start stop).filter (fun j => i ≠ j ∧
            hypotf ((cell local_data j).x - (cell local_data i).x)
              ((cell local_data j).y - (cell local_data i).y) + 1 / 1000000 < H K),
          (-(((cell local_data j).x - (cell local_data i).x) /
              (hypotf ((cell local_data j).x - (cell local_data i).x)
                ((cell local_data j).y - (cell local_data i).y) + 1 / 1000000)) * MASS K *
              ((cell local_data i).p + (cell local_data j).p) / (2 * (cell local_data j).rho) *
              (-10 / (M_PI * H K ^ 5)) *
              (H K - (hypotf ((cell local_data j).x - (cell local_data i).x)
                ((cell local_data j).y - (cell local_data i).y) + 1 / 1000000)) ^ 3 +
            VISC K * MASS K * ((cell local_data j).vx - (cell local_data i).vx) /
              (cell local_data j).rho * (40 / (M_PI * H K ^ 5)) *
              (H K - (hypotf ((cell local_data j).x - (cell local_data i).x)
                ((cell local_data j).y - (cell local_data i).y) + 1 / 1000000)))) +
        Gx K * MASS K / (cell local_data i).rho ∧
      q.fy = (∑ j ∈ (Finset.Ico start stop).filter (fun j => i ≠ j ∧
            hypotf ((cell local_data j).x - (cell local_data i).x)
              ((cell local_data j).y - (cell local_data i).y) + 1 / 1000000 < H K),
          (-(((cell local_data j).y - (cell local_data i).y) /
              (hypotf ((cell local_data j).x - (cell local_data i).x)
                ((cell local_data j).y - (cell local_data i).y) + 1 / 1000000)) * MASS K *
              ((cell local_data i).p + (cell local_data j).p) / (2 * (cell local_data j).rho) *
              (-10 / (M_PI * H K ^ 5)) *
              (H K - (hypotf ((cell local_data j).x - (cell local_data i).x)
                ((cell local_data j).y - (cell local_data i).y) + 1 / 1000000)) ^ 3 +
            VISC K * MASS K * ((cell local_data j).vy - (cell local_data i).vy) /
              (cell local_data j).rho * (40 / (M_PI * H K ^ 5)) *
              (H K - (hypotf ((cell local_data j).x - (cell local_data i).x)
                ((cell local_data j).y - (cell local_data i).y) + 1 / 1000000)))) +
        Gy K * MASS K / (cell local_data i).rho ∧
      q.rho = (cell local_data i).rho ∧
      ((∀ j, start ≤ j → j < stop → i ≠ j →
          ¬ hypotf ((cell local_data j).x - (cell local_data i).x)
            ((cell local_data j).y - (cell local_data i).y) + 1 / 1000000 < H K) →
        q.fx = Gx K * MASS K / (cell local_data i).rho ∧
        q.fy = Gy K * MASS K / (cell local_data i).rho) := by
  refine ⟨_, forces_get M_PI hypotf local_data start stop i hstop h1 h2, ?_, ?_, rfl, ?_⟩
  · show (force_acc_of M_PI hypotf local_data start stop i).fpress_x +
      (force_acc_of M_PI hypotf local_data start stop i).fvisc_x +
      Gx K * MASS K / (cell local_data i).rho = _
    unfold force_acc_of
    rw [forces_inner_sum]
    simp only [zero_add]
    rw [← Finset.sum_add_distrib, Finset.sum_filter]
    congr 1
    apply Finset.sum_congr rfl
    intro j _
    unfold contribution pair_force dist_eps
    by_cases hij : i = j
    · simp [hij]
    · by_cases hd : hypotf ((cell local_data j).x - (cell local_data i).x)
          ((cell local_data j).y - (cell local_data i).y) + EPS_dist < H K
      · have hd2 : hypotf ((cell local_data j).x - (cell local_data i).x)
          ((cell local_data j).y - (cell local_data i).y) + 1 / 1000000 < H K := hd
        rw [if_neg hij, if_pos hd, if_pos ⟨hij, hd2⟩]
        rfl
      · have hd2 : ¬ hypotf ((cell local_data j).x - (cell local_data i).x)
          ((cell local_data j).y - (cell local_data i).y) + 1 / 1000000 < H K := hd
        rw [if_neg hij, if_neg hd, if_neg (fun h => hd2 h.2)]
        simp
  · show (force_acc_of M_PI hypotf local_data start stop i).fpress_y +
      (force_acc_of M_PI hypotf local_data start stop i).fvisc_y +
      Gy K * MASS K / (cell local_data i).rho = _
    unfold force_acc_of
    rw [forces_inner_sum]
    simp only [zero_add]
    rw [← Finset.sum_add_distrib, Finset.sum_filter]
    congr 1
    apply Finset.sum_congr rfl
    intro j _
    unfold contribution pair_force dist_eps
    by_cases hij : i = j
    · simp [hij]
    · by_cases hd : hypotf ((cell local_data j).x - (cell local_data i).x)
          ((cell local_data j).y - (cell local_data i).y) + EPS_dist < H K
      · have hd2 : hypotf ((cell local_data j).x - (cell local_data i).x)
          ((cell local_data j).y - (cell local_data i).y) + 1 / 1000000 < H K := hd
        rw [if_neg hij, if_pos hd, if_pos ⟨hij, hd2⟩]
        rfl
      · have hd2 : ¬ hypotf ((cell local_data j).x - (cell local_data i).x)
          ((cell local_data j).y - (cell local_data i).y) + 1 / 1000000 < H K := hd
        rw [if_neg hij, if_neg hd, if_neg (fun h => hd2 h.2)]
        simp
  · intro hfar
    have hz : ∀ k ∈ Finset.Ico start stop,
        contribution M_PI hypotf local_data i k = ⟨0, 0, 0, 0⟩ := by
      intro k hk
      obtain ⟨k1, k2⟩ := Finset.mem_Ico.1 hk
      exact contribution_of_far M_PI hypotf local_data i k (fun hik => hfar k k1 k2 hik)
    constructor
    · show (force_acc_of M_PI hypotf local_data start stop i).fpress_x +
        (force_acc_of M_PI hypotf local_data start stop i).fvisc_x +
        Gx K * MASS K / (cell local_data i).rho = _
      unfold force_acc_of
      rw [forces_inner_sum]
      simp only [zero_add]
      rw [Finset.sum_eq_zero (fun k hk => by rw [hz k hk]),
        Finset.sum_eq_zero (fun k hk => by rw [hz k hk]), add_zero, zero_add]
    · show (force_acc_of M_PI hypotf local_data start stop i).fpress_y +
        (force_acc_of M_PI hypotf local_data start stop i).fvisc_y +
        Gy K * MASS K / (cell local_data i).rho = _
      unfold force_acc_of
      rw [forces_inner_sum]
      simp only [zero_add]
      rw [Finset.sum_eq_zero (fun k hk => by rw [hz k hk]),
        Finset.sum_eq_zero (fun k hk => by rw [hz k hk]), add_zero, zero_add]

/-- Witness for C15: a single particle with density `2`; its force is gravity
alone. -/
theorem forces_formula_witness :
    ∃ q : particle_t ℚ,
      (compute_forces (3 : ℚ) (fun a b => |a| + |b|)
        [(⟨100, 100, 0, 0, 7, 7, 2, 0⟩ : particle_t ℚ)] 0 1)[0]? = some q ∧
      q.fx = Gx ℚ * MASS ℚ / 2 ∧ q.fy = Gy ℚ * MASS ℚ / 2 := by
  obtain ⟨q, hq, _, _, _, hfar⟩ := forces_formula (3 : ℚ) (fun a b => |a| + |b|)
    [(⟨100, 100, 0, 0, 7, 7, 2, 0⟩ : particle_t ℚ)] 0 1 0 (by decide) (by decide) (by decide)
    (by
      intro j _ hj
      have hj0 : j = 0 := by omega
      subst hj0
      simp [cell, rd])
  exact ⟨q, hq, hfar (by
    intro j _ hj hne
    omega)⟩

/-! ## Locality of the physics step -/

theorem rho_sum_local (M_PI : K) (a b : List (particle_t K)) (start stop i : Nat)
    (hi : cell a i = cell b i)
    (h : ∀ k, start ≤ k → k < stop → cell a k = cell b k) :
    rho_sum M_PI a start stop i = rho_sum M_PI b start stop i := by
  unfold rho_sum
  apply Finset.sum_congr rfl
  intro k hk
  obtain ⟨k1, k2⟩ := Finset.mem_Ico.1 hk
  rw [hi, h k k1 k2]

theorem force_acc_of_local (M_PI : K) (hypotf : K → K → K) (a b : List (particle_t K))
    (start stop i : Nat) (hi : cell a i = cell b i)
    (h : ∀ k, start ≤ k → k < stop → cell a k = cell b k) :
    force_acc_of M_PI hypotf a start stop i = force_acc_of M_PI hypotf b start stop i := by
  apply force_acc_of_congr
  · rw [hi]
    exact ⟨rfl, rfl, rfl, rfl, rfl, rfl⟩
  · intro k k1 k2
    rw [h k k1 k2]
    exact ⟨rfl, rfl, rfl, rfl, rfl, rfl⟩

theorem update_length (M_PI : K) (hypotf : K → K → K) (a : List (particle_t K))
    (start stop : Nat) (hstop : stop ≤ a.length) :
    (update M_PI hypotf a start stop).length = a.length := by
  have h1 := density_length M_PI a start stop hstop
  have h2 := forces_length M_PI hypotf (compute_density_pressure M_PI a start stop) start stop
    (by rw [h1]; exact hstop)
  have h3 := integrate_length
    (compute_forces M_PI hypotf (compute_density_pressure M_PI a start stop) start stop)
    start stop (by rw [h2, h1]; exact hstop)
  show (integrate _ start stop).length = a.length
  rw [h3, h2, h1]

theorem update_cell (M_PI : K) (hypotf : K → K → K) (a : List (particle_t K))
    (start stop : Nat) (hstop : stop ≤ a.length) (j : Nat) :
    cell (update M_PI hypotf a start stop) j =
      if start ≤ j ∧ j < stop then
        enforce_boundary (forward_euler
          (with_force (with_density (cell a j) (rho_sum M_PI a start stop j))
            (force_acc_of M_PI hypotf (compute_density_pressure M_PI a start stop)
              start stop j)))
      else cell a j := by
  have h1 := density_length M_PI a start stop hstop
  have h2 := forces_length M_PI hypotf (compute_density_pressure M_PI a start stop) start stop
    (by rw [h1]; exact hstop)
  show cell (integrate _ start stop) j = _
  rw [integrate_cell _ start stop (by rw [h2, h1]; exact hstop) j,
    forces_cell M_PI hypotf _ start stop (by rw [h1]; exact hstop) j,
    density_cell M_PI a start stop hstop j]
  by_cases hj : start ≤ j ∧ j < stop
  · simp only [if_pos hj]
  · simp only [if_neg hj]

theorem get_eq_of_cell_eq (a b : List (particle_t K)) (j : Nat) (hl : a.length = b.length)
    (hc : cell a j = cell b j) : a[j]? = b[j]? := by
  by_cases hj : j < a.length
  · rw [get_of_cell a j hj, get_of_cell b j (by omega), hc]
  · rw [List.getElem?_eq_none (by omega), List.getElem?_eq_none (by omega)]

/-- C12: the physics step is shard-local.  For a range `[start, end)` of the
array, `update` leaves every particle outside the range as it was, and the
particles it leaves inside the range depend only on the particles that were
inside the range: two arrays that agree on `[start, end)` give the same
result on `[start, end)`. -/
theorem update_shard_local (M_PI : K) (hypotf : K → K → K) (a b : List (particle_t K))
    (start stop : Nat) (ha : stop ≤ a.length) (hb : stop ≤ b.length)
    (hab : ∀ j, start ≤ j → j < stop → a[j]? = b[j]?) :
    (update M_PI hypotf a start stop).length = a.length ∧
    (∀ j, ¬ (start ≤ j ∧ j < stop) → (update M_PI hypotf a start stop)[j]? = a[j]?) ∧
    (∀ j, start ≤ j → j < stop →
      (update M_PI hypotf a start stop)[j]? = (update M_PI hypotf b start stop)[j]?) := by
  have hla := update_length M_PI hypotf a start stop ha
  have hlb := update_length M_PI hypotf b start stop hb
  have hcell : ∀ k, start ≤ k → k < stop → cell a k = cell b k := by
    intro k k1 k2
    have h := hab k k1 k2
    rw [get_of_cell a k (by omega), get_of_cell b k (by omega)] at h
    exact Option.some.inj h
  have hdens : ∀ k, start ≤ k → k < stop →
      cell (compute_density_pressure M_PI a start stop) k =
        cell (compute_density_pressure M_PI b start stop) k := by
    intro k k1 k2
    rw [density_cell M_PI a start stop ha k, density_cell M_PI b start stop hb k,
      if_pos ⟨k1, k2⟩, if_pos ⟨k1, k2⟩, hcell k k1 k2,
      rho_sum_local M_PI a b start stop k (hcell k k1 k2) hcell]
  refine ⟨hla, ?_, ?_⟩
  · intro j hj
    apply get_eq_of_cell_eq _ _ j hla
    rw [update_cell M_PI hypotf a start stop ha j, if_neg hj]
  · intro j j1 j2
    rw [get_of_cell _ j (by rw [hla]; omega), get_of_cell _ j (by rw [hlb]; omega),
      update_cell M_PI hypotf a start stop ha j, update_cell M_PI hypotf b start stop hb j,
      if_pos ⟨j1, j2⟩, if_pos ⟨j1, j2⟩, hcell j j1 j2,
      rho_sum_local M_PI a b start stop j (hcell j j1 j2) hcell,
      force_acc_of_local M_PI hypotf _ _ start stop j (hdens j j1 j2) hdens]

/-- Witness for C12: two arrays that agree on `[0, 1)` and differ in the
particle at index 1, which lies within the cutoff of particle 0. -/
theorem update_shard_local_witness :
    (update (3 : ℚ) (fun a b => |a| + |b|)
        [(⟨100, 100, 0, 0, 0, 0, 0, 0⟩ : particle_t ℚ), ⟨101, 100, 0, 0, 0, 0, 0, 0⟩] 0 1)[0]? =
      (update (3 : ℚ) (fun a b => |a| + |b|)
        [(⟨100, 100, 0, 0, 0, 0, 0, 0⟩ : particle_t ℚ), ⟨900, 900, 5, 5, 0, 0, 0, 0⟩] 0 1)[0]? :=
  (update_shard_local (3 : ℚ) (fun a b => |a| + |b|)
    [(⟨100, 100, 0, 0, 0, 0, 0, 0⟩ : particle_t ℚ), ⟨101, 100, 0, 0, 0, 0, 0, 0⟩]
    [(⟨100, 100, 0, 0, 0, 0, 0, 0⟩ : particle_t ℚ), ⟨900, 900, 5, 5, 0, 0, 0, 0⟩] 0 1
    (by decide) (by decide)
    (by
      intro j _ hj
      have hj0 : j = 0 := by omega
      subst hj0
      rfl)).2.2 0 (by decide) (by decide)

/-! ## The density stays below the rest density -/

theorem sqdist_nonneg (p q : particle_t K) : 0 ≤ sqdist p q := by
  unfold sqdist
  exact add_nonneg (mul_self_nonneg _) (mul_self_nonneg _)

theorem density_term_le_self (M_PI : K) (hpi : 0 < M_PI) (d2 : K) (hd : 0 ≤ d2) :
    density_term M_PI d2 ≤ MASS K * POLY6 M_PI * H K ^ 6 := by
  have hc : (0 : K) < MASS K * POLY6 M_PI := mul_pos MASS_pos (POLY6_pos M_PI hpi)
  have h6 : (H K) ^ 6 = (HSQ : K) ^ 3 := by
    unfold HSQ
    ring
  unfold density_term
  by_cases h : d2 < HSQ
  · rw [if_pos h, h6]
    apply mul_le_mul_of_nonneg_left _ (le_of_lt hc)
    exact pow_le_pow_left₀ (le_of_lt (sub_pos.2 h)) (by linarith) 3
  · rw [if_neg h]
    exact le_of_lt (mul_pos hc (pow_pos H_pos 6))

theorem rho_sum_le_count (M_PI : K) (hpi : 0 < M_PI) (a : List (particle_t K))
    (start stop i : Nat) :
    rho_sum M_PI a start stop i ≤
      ((stop - start : Nat) : K) * (4 * MASS K / (M_PI * H K ^ 2)) := by
  have h := Finset.sum_le_card_nsmul (Finset.Ico start stop)
    (fun k => density_term M_PI (sqdist (cell a i) (cell a k)))
    (MASS K * POLY6 M_PI * H K ^ 6)
    (fun k _ => density_term_le_self M_PI hpi _ (sqdist_nonneg _ _))
  rw [Nat.card_Ico, nsmul_eq_mul, self_term_eq M_PI hpi] at h
  exact h

theorem count_bound (M_PI : K) (hpi : 3 < M_PI) (c : Nat) (hc : c ≤ MAX_PARTICLES) :
    (c : K) * (4 * MASS K / (M_PI * H K ^ 2)) < REST_DENS K := by
  have hpos : (0 : K) < M_PI := by linarith
  have hcK : (c : K) ≤ 20000 := by
    have : (c : K) ≤ ((20000 : Nat) : K) := Nat.cast_le.2 hc
    simpa using this
  have hc0 : (0 : K) ≤ (c : K) := Nat.cast_nonneg c
  unfold MASS H REST_DENS
  have hden : (0 : K) < M_PI * 16 ^ 2 := mul_pos hpos (by norm_num)
  rw [← mul_div_assoc, div_lt_iff₀ hden]
  nlinarith

/-- C19: with `MASS = 2.5`, `H = 16`, `REST_DENS = 300`, `GAS_CONST = 2000` and
any value of `M_PI` above `3`, for every range of the array that holds at
most `MAX_PARTICLES = 20000` particles, wherever they are,
`compute_density_pressure` gives every particle of the range
`rho ≤ (number of particles of the range) * 4 * MASS / (M_PI * H^2) < REST_DENS`
and hence a strictly negative pressure. -/
theorem density_below_rest (M_PI : K) (local_data : List (particle_t K))
    (start stop i : Nat) (hpi : 3 < M_PI) (hstop : stop ≤ local_data.length)
    (hcount : stop - start ≤ MAX_PARTICLES) (h1 : start ≤ i) (h2 : i < stop) :
    MASS K = 5 / 2 ∧ H K = 16 ∧ REST_DENS K = 300 ∧ GAS_CONST K = 2000 ∧
    MAX_PARTICLES = 20000 ∧
    ∃ q : particle_t K, (compute_density_pressure M_PI local_data start stop)[i]? = some q ∧
      q.rho ≤ ((stop - start : Nat) : K) * (4 * MASS K / (M_PI * H K ^ 2)) ∧
      ((stop - start : Nat) : K) * (4 * MASS K / (M_PI * H K ^ 2)) < REST_DENS K ∧
      q.rho < REST_DENS K ∧ q.p < 0 := by
  have hpos : (0 : K) < M_PI := by linarith
  have hle := rho_sum_le_count M_PI hpos local_data start stop i
  have hlt := count_bound M_PI hpi (stop - start) hcount
  refine ⟨rfl, rfl, rfl, rfl, rfl, _, density_get M_PI local_data start stop i hstop h1 h2,
    hle, hlt, lt_of_le_of_lt hle hlt, ?_⟩
  show GAS_CONST K * (rho_sum M_PI local_data start stop i - REST_DENS K) < 0
  have hg : (0 : K) < GAS_CONST K := by
    unfold GAS_CONST
    norm_num
  exact mul_neg_of_pos_of_neg hg (sub_neg.2 (lt_of_le_of_lt hle hlt))

/-- Witness for C19: three particles at the same place, with the value of the
macro `M_PI`. -/
theorem density_below_rest_witness :
    ∃ q : particle_t ℚ,
      (compute_density_pressure (314159265358979323846 / 100000000000000000000 : ℚ)
        [(⟨100, 100, 0, 0, 0, 0, 0, 0⟩ : particle_t ℚ), ⟨100, 100, 0, 0, 0, 0, 0, 0⟩,
          ⟨100, 100, 0, 0, 0, 0, 0, 0⟩] 0 3)[1]? = some q ∧
      q.rho < REST_DENS ℚ ∧ q.p < 0 := by
  obtain ⟨q, hq, _, _, hr, hp⟩ :=
    (density_below_rest (314159265358979323846 / 100000000000000000000 : ℚ)
      [(⟨100, 100, 0, 0, 0, 0, 0, 0⟩ : particle_t ℚ), ⟨100, 100, 0, 0, 0, 0, 0, 0⟩,
        ⟨100, 100, 0, 0, 0, 0, 0, 0⟩] 0 3 1
      (by norm_num) (by decide) (by decide) (by decide) (by decide)).2.2.2.2.2
  exact ⟨q, hq, hr, hp⟩

/-! ## The reported average -/

theorem equal_shards_sum (hypot : K → K → K) (c : Nat) (shards : List (List (particle_t K)))
    (h : ∀ sh ∈ shards, sh.length = c) :
    (shards.map (fun local_data => avg_velocities hypot local_data 0 local_data.length)).sum =
        (shards.flatten.map (speed hypot)).sum / (c : K) ∧
    shards.flatten.length = shards.length * c := by
  induction shards with
  | nil => simp
  | cons sh rest ih =>
    obtain ⟨ih1, ih2⟩ := ih (fun t ht => h t (List.mem_cons_of_mem _ ht))
    have hsh : sh.length = c := h sh (List.mem_cons_self _ _)
    constructor
    · rw [List.map_cons, List.sum_cons, ih1, avg_velocities_whole, hsh, List.flatten_cons,
        List.map_append, List.sum_append, add_div]
    · rw [List.flatten_cons, List.length_append, ih2, hsh, List.length_cons, Nat.succ_mul,
        Nat.add_comm]

theorem n_local_of_dvd (N P r : Nat) (h : P ∣ N) : n_local N P r = N / P := by
  unfold n_local
  rw [Nat.mod_eq_zero_of_dvd h]
  by_cases hr : r = P - 1
  · simp only [if_pos hr, Nat.add_zero]
  · simp only [if_neg hr]

/-- C20: the value that the coordinator reports,
`(Σ_r avg_velocities(shard_r, 0, count_r)) / P`, is the mean speed over all
`N` particles of all shards whenever `P` divides `N` and `N > 0`; for `N = 3`
and `P = 2` (`N mod P ≠ 0`) there are shards of the sizes `n_local` on which
it differs from that mean.  The function `hypot` is only assumed to satisfy
`hypot(0, 0) = 0` and `hypot(3, 4) = 5`. -/
theorem global_avg_vs_mean (hypot : K → K → K) (h00 : hypot 0 0 = 0) (h34 : hypot 3 4 = 5) :
    (∀ (N P : Nat) (shards : List (List (particle_t K))), 0 < N → P ∣ N →
      shards.length = P →
      (∀ r sh, shards[r]? = some sh → sh.length = n_local N P r) →
      shards.flatten.length = N ∧ global_avg hypot shards = mean_speed hypot shards) ∧
    (∃ (N P : Nat) (shards : List (List (particle_t K))), 1 ≤ P ∧ N % P ≠ 0 ∧
      shards.length = P ∧
      (∀ r sh, shards[r]? = some sh → sh.length = n_local N P r) ∧
      shards.flatten.length = N ∧ global_avg hypot shards ≠ mean_speed hypot shards) := by
  constructor
  · intro N P shards hN hdvd hlen hsize
    have hall : ∀ sh ∈ shards, sh.length = N / P := by
      intro sh hsh
      obtain ⟨r, hr⟩ := List.mem_iff_getElem?.1 hsh
      rw [hsize r sh hr, n_local_of_dvd N P r hdvd]
    obtain ⟨e1, e2⟩ := equal_shards_sum hypot (N / P) shards hall
    have hflat : shards.flatten.length = N := by
      rw [e2, hlen]
      exact Nat.mul_div_cancel' hdvd
    refine ⟨hflat, ?_⟩
    unfold global_avg mean_speed
    rw [e1, e2, div_div, Nat.cast_mul, mul_comm]
  · refine ⟨3, 2, [[⟨0, 0, 3, 4, 0, 0, 0, 0⟩], [⟨0, 0, 0, 0, 0, 0, 0, 0⟩, ⟨0, 0, 0, 0, 0, 0, 0, 0⟩]],
      by decide, by decide, rfl, ?_, rfl, ?_⟩
    · intro r sh hr
      rcases r with _ | _ | r
      · simp at hr
        subst hr
        rfl
      · simp at hr
        subst hr
        rfl
      · simp at hr
    · unfold global_avg mean_speed
      simp [avg_velocities_whole, speed, h00, h34]
      norm_num

/-- Witness for C20: four particles on two workers, with a function that
takes the two assumed values. -/
theorem global_avg_vs_mean_witness :
    global_avg (fun a b : ℚ => (3 * a + 4 * b) / 5)
        [[(⟨0, 0, 3, 4, 0, 0, 0, 0⟩ : particle_t ℚ), ⟨0, 0, 0, 0, 0, 0, 0, 0⟩],
          [⟨0, 0, 3, 4, 0, 0, 0, 0⟩, ⟨0, 0, 3, 4, 0, 0, 0, 0⟩]] =
      mean_speed (fun a b : ℚ => (3 * a + 4 * b) / 5)
        [[(⟨0, 0, 3, 4, 0, 0, 0, 0⟩ : particle_t ℚ), ⟨0, 0, 0, 0, 0, 0, 0, 0⟩],
          [⟨0, 0, 3, 4, 0, 0, 0, 0⟩, ⟨0, 0, 3, 4, 0, 0, 0, 0⟩]] :=
  ((global_avg_vs_mean (fun a b : ℚ => (3 * a + 4 * b) / 5) (by norm_num) (by norm_num)).1
    4 2 [[(⟨0, 0, 3, 4, 0, 0, 0, 0⟩ : particle_t ℚ), ⟨0, 0, 0, 0, 0, 0, 0, 0⟩],
      [⟨0, 0, 3, 4, 0, 0, 0, 0⟩, ⟨0, 0, 3, 4, 0, 0, 0, 0⟩]] (by decide) (by decide) rfl
    (by
      intro r sh hr
      rcases r with _ | _ | r
      · simp at hr
        subst hr
        rfl
      · simp at hr
        subst hr
        rfl
      · simp at hr)).2

/-! ## Seeding -/

theorem col_test (c : Nat) :
    EPS K + (c : K) * H K ≤ VIEW_WIDTH K * (4 / 5) ↔ c ≤ 224 := by
  unfold EPS H VIEW_WIDTH WINDOW_WIDTH
  constructor
  · intro h
    have h2 : (c : K) ≤ ((224 : Nat) : K) := by
      push_cast
      linarith
    exact Nat.cast_le.1 h2
  · intro h
    have h2 : (c : K) ≤ ((224 : Nat) : K) := Nat.cast_le.2 h
    push_cast at h2
    linarith

theorem row_test (r : Nat) :
    EPS K + (r : K) * H K < VIEW_HEIGHT K - EPS K ↔ r ≤ 185 := by
  unfold EPS H VIEW_HEIGHT WINDOW_HEIGHT
  constructor
  · intro h
    by_contra hr
    have h1 : 186 ≤ r := by omega
    have h2 : ((186 : Nat) : K) ≤ (r : K) := Nat.cast_le.2 h1
    push_cast at h2
    linarith
  · intro h
    have h2 : (r : K) ≤ ((185 : Nat) : K) := Nat.cast_le.2 h
    push_cast at h2
    linarith

theorem jitter_bounds (rand : Nat → Nat) (RAND_MAX : Nat)
    (h : 0 < RAND_MAX ∧ ∀ k, rand k ≤ RAND_MAX) (k : Nat) :
    0 ≤ (rand k : K) / (RAND_MAX : K) ∧ (rand k : K) / (RAND_MAX : K) ≤ 1 := by
  have hpos : (0 : K) < (RAND_MAX : K) := Nat.cast_pos.2 h.1
  constructor
  · exact div_nonneg (Nat.cast_nonneg _) (le_of_lt hpos)
  · rw [div_le_one hpos]
    exact Nat.cast_le.2 (h.2 k)

theorem placed_ok (c : Nat) (hc : c ≤ 224) (y j : K) (hy1 : EPS K ≤ y)
    (hy2 : y ≤ VIEW_HEIGHT K - EPS K) (hj0 : 0 ≤ j) (hj1 : j ≤ 1) :
    seeded_ok (init_particle (EPS K + (c : K) * H K + j) y) := by
  have hx := (col_test (K := K) c).2 hc
  have hc0 : (0 : K) ≤ (c : K) * H K := mul_nonneg (Nat.cast_nonneg c) (le_of_lt H_pos)
  refine ⟨rfl, rfl, rfl, rfl, rfl, rfl, ?_, ?_, hy1, hy2⟩
  · show EPS K ≤ EPS K + (c : K) * H K + j
    linarith
  · show EPS K + (c : K) * H K + j ≤ VIEW_WIDTH K - EPS K
    have e1 : VIEW_WIDTH K * (4 / 5) + 1 ≤ VIEW_WIDTH K - EPS K := by
      unfold VIEW_WIDTH WINDOW_WIDTH EPS
      norm_num
    linarith

theorem toNat_of_not_lt (n : Int) (m : Nat) (h1 : m ≤ n.toNat) (h2 : ¬ (m : Int) < n) :
    m = n.toNat := by
  omega

theorem init_sph_x_spec (rand : Nat → Nat) (RAND_MAX : Nat) (n : Int) (L : Nat)
    (hL : n.toNat ≤ L) (y : K) (hy1 : EPS K ≤ y) (hy2 : y ≤ VIEW_HEIGHT K - EPS K) :
    ∀ (fuel c : Nat) (st : seed_state K), c ≤ 225 → 225 - c < fuel →
      seed_inv rand RAND_MAX L n.toNat st →
      ∃ st1 b, init_sph_x rand RAND_MAX n y fuel (EPS K + (c : K) * H K) st = some (st1, b) ∧
        seed_inv rand RAND_MAX L n.toNat st1 ∧
        (b = true → st1.n_particles = n.toNat) ∧
        (b = false → st1.n_particles = st.n_particles + (225 - c)) := by
  intro fuel
  induction fuel with
  | zero =>
    intro c st _ hf
    omega
  | succ f ih =>
    intro c st hc hf hinv
    obtain ⟨i1, i2, i3⟩ := hinv
    unfold init_sph_x
    by_cases hx : EPS K + (c : K) * H K ≤ VIEW_WIDTH K * (4 / 5)
    · have hc224 : c ≤ 224 := (col_test c).1 hx
      rw [if_pos hx]
      by_cases hlt : (st.n_particles : Int) < n
      · rw [if_pos hlt]
        have hnp : st.n_particles < n.toNat := by omega
        have hstep : EPS K + (c : K) * H K + H K = EPS K + ((c + 1 : Nat) : K) * H K := by
          push_cast
          ring
        have hinv1 : seed_inv rand RAND_MAX L n.toNat
            { particles := wr st.particles st.n_particles
                (init_particle (EPS K + (c : K) * H K +
                  (rand st.rand_calls : K) / (RAND_MAX : K)) y)
              n_particles := st.n_particles + 1
              rand_calls := st.rand_calls + 1 } := by
          refine ⟨by rw [length_wr]; exact i1, hnp, ?_⟩
          intro hr i hi
          show seeded_ok (cell (wr st.particles st.n_particles _) i)
          rw [cell_wr st.particles st.n_particles i _ (by omega)]
          by_cases e : st.n_particles = i
          · rw [if_pos e]
            obtain ⟨j0, j1⟩ := jitter_bounds (K := K) rand RAND_MAX hr st.rand_calls
            exact placed_ok c hc224 y _ hy1 hy2 j0 j1
          · rw [if_neg e]
            exact i3 hr i (by
              have : i < st.n_particles + 1 := hi
              omega)
        obtain ⟨st1, b, e1, e2, e3, e4⟩ := ih (c + 1) _ (by omega) (by omega) hinv1
        refine ⟨st1, b, ?_, e2, e3, ?_⟩
        · simp only []
          rw [hstep]
          exact e1
        · intro hb
          have := e4 hb
          simp only [] at this
          omega
      · rw [if_neg hlt]
        exact ⟨st, true, rfl, ⟨i1, i2, i3⟩, fun _ => toNat_of_not_lt n _ i2 hlt,
          fun h => Bool.noConfusion h⟩
    · rw [if_neg hx]
      have hc225 : c = 225 := by
        have : ¬ c ≤ 224 := fun h => hx ((col_test c).2 h)
        omega
      exact ⟨st, false, rfl, ⟨i1, i2, i3⟩, fun h => Bool.noConfusion h, fun _ => by omega⟩

theorem init_sph_y_spec (rand : Nat → Nat) (RAND_MAX : Nat) (n : Int) (L : Nat)
    (hL : n.toNat ≤ L) (fuel_x : Nat) (hfx : 225 < fuel_x) :
    ∀ (fuel r : Nat) (st : seed_state K), r ≤ 186 → 186 - r < fuel →
      seed_inv rand RAND_MAX L n.toNat st →
      ∃ st1 b,
        init_sph_y rand RAND_MAX n fuel_x fuel (EPS K + (r : K) * H K) st = some (st1, b) ∧
        seed_inv rand RAND_MAX L n.toNat st1 ∧
        (b = true → st1.n_particles = n.toNat) ∧
        (b = false → st1.n_particles = st.n_particles + (186 - r) * 225) := by
  intro fuel
  induction fuel with
  | zero =>
    intro r st _ hf
    omega
  | succ f ih =>
    intro r st hr hf hinv
    unfold init_sph_y
    by_cases hy : EPS K + (r : K) * H K < VIEW_HEIGHT K - EPS K
    · have hr185 : r ≤ 185 := (row_test r).1 hy
      rw [if_pos hy]
      have hy1 : EPS K ≤ EPS K + (r : K) * H K := by
        have : (0 : K) ≤ (r : K) * H K := mul_nonneg (Nat.cast_nonneg r) (le_of_lt H_pos)
        linarith
      have h0 : EPS K = EPS K + ((0 : Nat) : K) * H K := by
        push_cast
        ring
      obtain ⟨st1, b, e1, e2, e3, e4⟩ := init_sph_x_spec rand RAND_MAX n L hL
        (EPS K + (r : K) * H K) hy1 (le_of_lt hy) fuel_x 0 st (by omega) (by omega) hinv
      rw [← h0] at e1
      rw [e1]
      cases b with
      | true => exact ⟨st1, true, rfl, e2, e3, fun h => Bool.noConfusion h⟩
      | false =>
        have hstep : EPS K + (r : K) * H K + H K = EPS K + ((r + 1 : Nat) : K) * H K := by
          push_cast
          ring
        obtain ⟨st2, b2, f1, f2, f3, f4⟩ := ih (r + 1) st1 (by omega) (by omega) e2
        refine ⟨st2, b2, ?_, f2, f3, ?_⟩
        · simp only []
          rw [hstep]
          exact f1
        · intro hb
          have h5 := f4 hb
          have h6 := e4 rfl
          omega
    · rw [if_neg hy]
      have hr186 : r = 186 := by
        have : ¬ r ≤ 185 := fun h => hy ((row_test r).2 h)
        omega
      exact ⟨st, false, rfl, hinv, fun h => Bool.noConfusion h, fun _ => by omega⟩

theorem init_sph_spec (rand : Nat → Nat) (RAND_MAX : Nat) (fuel : Nat)
    (particles : List (particle_t K)) (n : Int) (hfuel : 225 < fuel)
    (hn : n.toNat ≤ particles.length) (hgrid : n.toNat < 186 * 225) :
    ∃ st : seed_state K,
      init_sph_y rand RAND_MAX n fuel fuel (EPS K)
        { particles := particles, n_particles := 0, rand_calls := 0 } = some (st, true) ∧
      init_sph rand RAND_MAX fuel particles n = Except.ok st ∧
      seed_inv rand RAND_MAX particles.length n.toNat st ∧ st.n_particles = n.toNat := by
  have hinv0 : seed_inv rand RAND_MAX particles.length n.toNat
      ({ particles := particles, n_particles := 0, rand_calls := 0 } : seed_state K) :=
    ⟨rfl, Nat.zero_le _, fun _ i hi => absurd hi (Nat.not_lt_zero i)⟩
  have h0 : EPS K = EPS K + ((0 : Nat) : K) * H K := by
    push_cast
    ring
  obtain ⟨st, b, e1, e2, e3, e4⟩ := init_sph_y_spec rand RAND_MAX n particles.length hn fuel
    hfuel fuel 0 _ (by omega) (by omega) hinv0
  rw [← h0] at e1
  cases b with
  | true =>
    refine ⟨st, e1, ?_, e2, e3 rfl⟩
    unfold init_sph
    rw [e1]
  | false =>
    have h5 := e4 rfl
    have h6 := e2.2.1
    simp only [] at h5
    omega

/-- C17: for every `n` with `0 ≤ n ≤ MAX_PARTICLES = 20000`, `init_sph(n)` on
the array of `MAX_PARTICLES` cells returns (given fuel for the 225 columns of
a row), and it returns through the `return` of line 158, so the loops do not
run out of grid cells and the assertion of line 162 is not even reached; it
ends with `n_particles = n`; and when `rand()` stays within `[0, RAND_MAX]`
(jitter in `[0, 1]`) every seeded particle has zero velocity, force, density
and pressure and a position in
`[EPS, VIEW_WIDTH - EPS] × [EPS, VIEW_HEIGHT - EPS]`. -/
theorem init_sph_seeds (rand : Nat → Nat) (RAND_MAX : Nat) (fuel : Nat)
    (particles : List (particle_t K)) (n : Int) (hfuel : 225 < fuel)
    (hlen : particles.length = MAX_PARTICLES) (hn0 : 0 ≤ n) (hn : n ≤ (MAX_PARTICLES : Int))
    (hmax : 0 < RAND_MAX) (hrand : ∀ k, rand k ≤ RAND_MAX) :
    ∃ st : seed_state K, init_sph rand RAND_MAX fuel particles n = Except.ok st ∧
      init_sph_y rand RAND_MAX n fuel fuel (EPS K)
        { particles := particles, n_particles := 0, rand_calls := 0 } = some (st, true) ∧
      (st.n_particles : Int) = n ∧ st.particles.length = MAX_PARTICLES ∧
      ∀ i, i < st.n_particles → ∃ q : particle_t K, st.particles[i]? = some q ∧
        q.vx = 0 ∧ q.vy = 0 ∧ q.fx = 0 ∧ q.fy = 0 ∧ q.rho = 0 ∧ q.p = 0 ∧
        EPS K ≤ q.x ∧ q.x ≤ VIEW_WIDTH K - EPS K ∧
        EPS K ≤ q.y ∧ q.y ≤ VIEW_HEIGHT K - EPS K := by
  have hM : MAX_PARTICLES = 20000 := rfl
  have hT : n.toNat ≤ particles.length := by omega
  obtain ⟨st, e1, e2, ⟨i1, i2, i3⟩, e4⟩ :=
    init_sph_spec rand RAND_MAX fuel particles n hfuel hT (by omega)
  refine ⟨st, e2, e1, by omega, by rw [i1, hlen], ?_⟩
  intro i hi
  exact ⟨cell st.particles i, get_of_cell _ i (by omega), i3 ⟨hmax, hrand⟩ i hi⟩

/-- Witness for C17: three particles, with a `rand()` that cycles through
`0, ..., 6` and `RAND_MAX = 6`. -/
theorem init_sph_seeds_witness :
    ∃ st : seed_state ℚ,
      init_sph (fun k => k % 7) 6 226
        (List.replicate MAX_PARTICLES (particle_t.zero : particle_t ℚ)) 3 = Except.ok st ∧
      (st.n_particles : Int) = 3 := by
  obtain ⟨st, h1, _, h3, _⟩ := init_sph_seeds (fun k => k % 7) 6 226
    (List.replicate MAX_PARTICLES (particle_t.zero : particle_t ℚ)) 3
    (by decide) (List.length_replicate _ _) (by decide) (by decide) (by decide)
    (fun k => Nat.lt_succ_iff.1 (Nat.mod_lt k (by decide)))
  exact ⟨st, h1, h3⟩

/-! ## Configuration errors -/

/-- C13: on rank 0, a requested particle count `n > MAX_PARTICLES` makes
`main` return `EXIT_FAILURE` without calling `init_sph` and without running a
simulation step.  Conversely, with `argc ≤ 3` (at most two arguments) and
`n ≤ MAX_PARTICLES`, no configuration error is raised, `init_sph(n)` is called
and returns, and the seeded `n_particles` (which is `n`, or `0` for a negative
`n`) does not exceed `MAX_PARTICLES`.  Here `n` is `atoi(argv[1])` when
`argc > 1` and `DAM_PARTICLES` otherwise. -/
theorem main_configuration (rand : Nat → Nat) (RAND_MAX : Nat) (fuel : Nat)
    (particles : List (particle_t K)) (argc : Nat) (arg1 arg2 : Int) (hfuel : 225 < fuel)
    (hlen : particles.length = MAX_PARTICLES) :
    ((if argc > 1 then arg1 else DAM_PARTICLES) > (MAX_PARTICLES : Int) →
      (main_rank0 rand RAND_MAX fuel particles argc arg1 arg2).exit_code = some EXIT_FAILURE ∧
      (main_rank0 rand RAND_MAX fuel particles argc arg1 arg2).called_init_sph = false ∧
      (main_rank0 rand RAND_MAX fuel particles argc arg1 arg2).steps_run = 0 ∧
      (main_rank0 rand RAND_MAX fuel particles argc arg1 arg2).seeded = none) ∧
    (argc ≤ 3 → (if argc > 1 then arg1 else DAM_PARTICLES) ≤ (MAX_PARTICLES : Int) →
      ∃ (st : seed_state K) (steps : Nat),
        main_rank0 rand RAND_MAX fuel particles argc arg1 arg2 =
          main_outcome.completed st steps ∧
        init_sph rand RAND_MAX fuel particles (if argc > 1 then arg1 else DAM_PARTICLES) =
          Except.ok st ∧
        st.n_particles = (if argc > 1 then arg1 else DAM_PARTICLES).toNat ∧
        st.n_particles ≤ MAX_PARTICLES) := by
  have hM : MAX_PARTICLES = 20000 := rfl
  constructor
  · intro hbig
    unfold main_rank0
    by_cases ha : argc > 3
    · simp only [if_pos ha]
      exact ⟨rfl, rfl, rfl, rfl⟩
    · simp only [if_neg ha, if_pos hbig]
      exact ⟨rfl, rfl, rfl, rfl⟩
  · intro ha hsmall
    have hT : (if argc > 1 then arg1 else DAM_PARTICLES).toNat ≤ particles.length := by omega
    obtain ⟨st, _, e2, _, e4⟩ := init_sph_spec rand RAND_MAX fuel particles
      (if argc > 1 then arg1 else DAM_PARTICLES) hfuel hT (by omega)
    refine ⟨st, (if argc > 2 then arg2 else 50).toNat, ?_, e2, e4, by omega⟩
    unfold main_rank0
    simp only [if_neg (Nat.not_lt.2 ha), if_neg (not_lt.2 hsmall), e2]

/-- Witness for C13: `argc = 2` and `atoi(argv[1]) = 20001`. -/
theorem main_configuration_witness :
    (main_rank0 (fun k => k % 7) 6 226
      (List.replicate MAX_PARTICLES (particle_t.zero : particle_t ℚ)) 2 20001 0).exit_code =
        some EXIT_FAILURE ∧
    (main_rank0 (fun k => k % 7) 6 226
      (List.replicate MAX_PARTICLES (particle_t.zero : particle_t ℚ)) 2 20001 0).called_init_sph =
        false :=
  ⟨((main_configuration (fun k => k % 7) 6 226
      (List.replicate MAX_PARTICLES (particle_t.zero : particle_t ℚ)) 2 20001 0
      (by decide) (List.length_replicate _ _)).1 (by decide)).1,
   ((main_configuration (fun k => k % 7) 6 226
      (List.replicate MAX_PARTICLES (particle_t.zero : particle_t ℚ)) 2 20001 0
      (by decide) (List.length_replicate _ _)).1 (by decide)).2.1⟩

end DriverFacts

end SPH
